import Mathlib

/-!
Verification of the Dimba tournament progression engine
(`backend/app/services/scheduler_service.py`, `standings.py`,
`qualification_service.py`, `competition_service.py`) against its
natural-language specification.

The Python services are shallowly embedded: the database session is an
explicit record of entity lists, SQLAlchemy queries become list filters,
and wall-clock timestamps become explicit integer parameters.
-/

set_option maxRecDepth 10000

/-- `app/models/competition.py`: `CompetitionType` enum. -/
inductive CompetitionType
  | REGIONAL | NATIONAL | CUP | SUPER | COUNTY
deriving DecidableEq, Repr

/-- `app/models/match.py`: `MatchStage` enum. -/
inductive MatchStage
  | SUPER | LEAGUE | GROUP | ROUND_1 | ROUND_2 | ROUND_3
  | ROUND_OF_16 | QUARTER_FINAL | SEMI_FINAL | FINAL
deriving DecidableEq, Repr

/-- `app/models/match.py`: `MatchStatus` enum. -/
inductive MatchStatus
  | SCHEDULED | COMPLETED | CONFIRMED
deriving DecidableEq, Repr

/-- `app/models/team.py`: the fields of `Team` the scheduler reads
(`id`, `county_id`, `region_id`). -/
structure Team where
  id : Nat
  county_id : Nat
  region_id : Nat
deriving DecidableEq, Repr

/-- `app/models/competition.py`: the fields of `Competition` the services
read. `teams` is the many-to-many collection `competition.teams`. -/
structure Competition where
  id : Nat
  type : CompetitionType
  season_id : Nat
  teams : List Team
deriving DecidableEq, Repr

/-- `app/models/match.py`: the `Match` row. Dates are integers (days);
nullable columns are `Option`. -/
structure Match where
  competition_id : Nat
  season_id : Nat
  home_team_id : Option Nat := none
  away_team_id : Option Nat := none
  home_score : Option Nat := none
  away_score : Option Nat := none
  match_date : Option Int := none
  status : MatchStatus := MatchStatus.SCHEDULED
  matchday : Option Nat := none
  stage : Option MatchStage := none
  group_name : Option String := none
  leg : Option Nat := none
  round_number : Option Nat := none
  bracket_position : Option Nat := none
  penalty_winner_id : Option Nat := none
deriving DecidableEq, Repr

/-- `app/models/standing.py`: the `Standing` row. `updated_at` is an
integer timestamp. -/
structure Standing where
  team_id : Nat
  competition_id : Nat
  season_id : Nat
  played : Nat := 0
  won : Nat := 0
  drawn : Nat := 0
  lost : Nat := 0
  goals_for : Nat := 0
  goals_against : Nat := 0
  goal_difference : Int := 0
  points : Nat := 0
  group_name : Option String := none
  updated_at : Int := 0
deriving DecidableEq, Repr

/-- The database session state touched by the services under audit. -/
structure DB where
  competitions : List Competition
  «matches» : List Match
  standings : List Standing
deriving DecidableEq, Repr

/-- `db.session.get(Competition, competition_id)`. -/
def dbGetCompetition (db : DB) (competition_id : Nat) : Option Competition :=
  db.competitions.find? (fun c => c.id == competition_id)

/- ── Round-Robin (`generate_round_robin`, scheduler_service.py lines 14-128) ── -/

/-- Python `rotating = [rotating[-1]] + rotating[:-1]` (line 56). -/
def rotRight (l : List Nat) : List Nat :=
  match l.getLast? with
  | none => []
  | some x => x :: l.dropLast

/-- One round of the circle method (lines 51-54): pair the anchor `0` with
`rotating[0]`, then `(rotating[i], rotating[n-1-i])` for `i in range(1, half)`. -/
def roundPairs (n : Nat) (rot : List Nat) : List (Nat × Nat) :=
  (0, rot.getD 0 0) ::
    (List.range' 1 (n / 2 - 1)).map (fun i => (rot.getD i 0, rot.getD (n - 1 - i) 0))

/-- The loop of lines 50-56: emit `count` rounds, rotating after each. -/
def buildRounds (n : Nat) : Nat → List Nat → List (List (Nat × Nat))
  | 0, _ => []
  | c + 1, rot => roundPairs n rot :: buildRounds n c (rotRight rot)

/-- Lines 47-56 assembled: the `n - 1` rounds from `rotating = list(range(1, n))`. -/
def rrRounds (n : Nat) : List (List (Nat × Nat)) :=
  buildRounds n (n - 1) ((List.range (n - 1)).map (· + 1))

/-- `_county_score` (lines 60-67): number of pairings in the round whose two
teams exist and share a county. -/
def county_score (teams : List (Option Team)) (round_pairs : List (Nat × Nat)) : Nat :=
  round_pairs.foldl
    (fun score p =>
      match teams.getD p.1 none, teams.getD p.2 none with
      | some home, some away => if home.county_id = away.county_id then score + 1 else score
      | _, _ => score)
    0

/-- Stable insertion of `x` into a list already sorted descending by `key`:
`x` goes after every strictly larger element and before equal ones, which is
the placement Python's stable `list.sort(key=..., reverse=True)` gives an
element relative to those that follow it. -/
def insertDescBy (key : α → Nat) (x : α) : List α → List α
  | [] => [x]
  | y :: ys => if key x < key y then y :: insertDescBy key x ys else x :: y :: ys

/-- Stable descending sort by `key`: Python `rounds.sort(key=..., reverse=True)`
(line 69). -/
def sortDescBy (key : α → Nat) : List α → List α
  | [] => []
  | x :: xs => insertDescBy key x (sortDescBy key xs)

/-- The `Match` row built at lines 83-92 (and, with home/away swapped by the
caller, lines 105-114). -/
def mkLeagueMatch (cid sid : Nat) (start_date interval_days : Int) (matchday : Nat)
    (hid aid : Nat) : Match :=
  { competition_id := cid
    season_id := sid
    home_team_id := some hid
    away_team_id := some aid
    match_date := some (start_date + ((matchday : Int) - 1) * interval_days)
    stage := some MatchStage.LEAGUE
    matchday := some matchday
    status := MatchStatus.SCHEDULED }

/-- One emission pass (lines 75-94 with `swap = false`, lines 97-116 with
`swap = true`): walk the rounds, keep a running matchday starting at
`mdOffset + 1`, and skip pairings that touch the bye placeholder. -/
def emitPass (teams : List (Option Team)) (cid sid : Nat) (start_date interval_days : Int)
    (mdOffset : Nat) (swap : Bool) (rounds : List (List (Nat × Nat))) : List Match :=
  (rounds.enum.map (fun r =>
    r.2.filterMap (fun p =>
      match teams.getD p.1 none, teams.getD p.2 none with
      | some home, some away =>
          some (mkLeagueMatch cid sid start_date interval_days (mdOffset + r.1 + 1)
            (if swap then away.id else home.id) (if swap then home.id else away.id))
      | _, _ => none))).flatten

/-- `generate_round_robin(competition_id, start_date, interval_days)`
(lines 14-128). Returns the updated session, the created match list and the
error, mirroring the Python `(matches, error)` pair; on error the session is
untouched. `now` models the clock used for the `Standing` rows' default
`updated_at`. -/
def generate_round_robin (db : DB) (competition_id : Nat)
    (start_date interval_days now : Int) : DB × List Match × Option String :=
  match dbGetCompetition db competition_id with
  | none => (db, [], some "Competition not found")
  | some competition =>
    if competition.type ≠ CompetitionType.REGIONAL then
      (db, [], some "Round-robin is only for regional competitions")
    else if competition.teams.length < 2 then
      (db, [], some "Competition must have at least 2 teams")
    else if (db.matches.find? (fun m =>
        m.competition_id == competition_id && m.stage == some MatchStage.LEAGUE)).isSome then
      (db, [], some "Fixtures already generated for this competition")
    else
      let teams : List (Option Team) :=
        if competition.teams.length % 2 ≠ 0 then competition.teams.map some ++ [none]
        else competition.teams.map some
      let n := teams.length
      let rounds := sortDescBy (county_score teams) (rrRounds n)
      let ms :=
        emitPass teams competition_id competition.season_id start_date interval_days
          0 false rounds ++
        emitPass teams competition_id competition.season_id start_date interval_days
          rounds.length true rounds
      let newStandings := (teams.filterMap id).map (fun t =>
        { team_id := t.id, competition_id := competition_id,
          season_id := competition.season_id, updated_at := now : Standing })
      ({ db with «matches» := db.matches ++ ms,
                 standings := db.standings ++ newStandings },
       ms, none)

/- ── Closed form of the circle-method rotation ──
The analysis below works with `L := n - 1` (the length of the rotating list)
and the value function `rrVal`: after `k` right-rotations the rotating list
holds `rrVal L k i` at index `i`. -/

/-- Value at index `i` of the rotating list after `k` right-rotations. -/
def rrVal (L k i : Nat) : Nat := (i + k * (L - 1)) % L + 1

/-- Closed form of round `k`: the anchor pairing plus the symmetric pairings. -/
def rrRound (L k : Nat) : List (Nat × Nat) :=
  (0, rrVal L k 0) ::
    (List.range' 1 ((L + 1) / 2 - 1)).map (fun i => (rrVal L k i, rrVal L k (L - i)))

theorem rotRight_eq_rotate (l : List Nat) : rotRight l = l.rotate (l.length - 1) := by
  match l with
  | [] => rfl
  | a :: as =>
    have hne : (a :: as) ≠ [] := by simp
    rw [rotRight, List.getLast?_eq_getLast_of_ne_nil hne]
    conv_rhs => rw [← List.dropLast_append_getLast hne]
    have h1 : ((a :: as).dropLast ++ [(a :: as).getLast hne]).length - 1
        = ((a :: as).dropLast).length := by simp
    rw [h1, List.rotate_eq_drop_append_take (by simp)]
    simp [List.drop_left, List.take_left]

theorem iterate_rotRight (L : Nat) (s : List Nat) (hs : s.length = L) (k : Nat) :
    rotRight^[k] s = s.rotate (k * (L - 1)) := by
  induction k with
  | zero => simp
  | succ k ih =>
    rw [Function.iterate_succ_apply', ih, rotRight_eq_rotate, List.length_rotate, hs,
      List.rotate_rotate, ← Nat.succ_mul]

theorem rotStart_getD (L k i : Nat) (hi : i < L) :
    ((((List.range L).map (· + 1)).rotate (k * (L - 1))).getD i 0) = rrVal L k i := by
  have hlen : (((List.range L).map (· + 1)).rotate (k * (L - 1))).length = L := by
    simp
  have hi' : i < (((List.range L).map (· + 1)).rotate (k * (L - 1))).length := by
    rw [hlen]; exact hi
  rw [List.getD_eq_getElem _ _ hi', List.getElem_rotate]
  simp [rrVal]

theorem buildRounds_eq_map (n : Nat) :
    ∀ (c : Nat) (rot : List Nat),
      buildRounds n c rot = (List.range c).map (fun k => roundPairs n (rotRight^[k] rot)) := by
  intro c
  induction c with
  | zero => intro rot; rfl
  | succ c ih =>
    intro rot
    rw [buildRounds, ih (rotRight rot), List.range_succ_eq_map, List.map_cons, List.map_map]
    refine congrArg₂ _ rfl (List.map_congr_left fun k _ => ?_)
    simp [Function.iterate_succ_apply]

theorem rrRounds_eq (n : Nat) (hn2 : 2 ≤ n) :
    rrRounds n = (List.range (n - 1)).map (fun k => rrRound (n - 1) k) := by
  obtain ⟨L, rfl⟩ : ∃ L, n = L + 1 := ⟨n - 1, by omega⟩
  have hL : 1 ≤ L := by omega
  rw [rrRounds, buildRounds_eq_map]
  refine List.map_congr_left fun k hk => ?_
  rw [iterate_rotRight (L := L) _ (by simp) k]
  have hround : (L + 1) - 1 = L := by omega
  rw [hround] at *
  rw [roundPairs, rrRound]
  refine congrArg₂ _ ?_ ?_
  · rw [rotStart_getD L k 0 (by omega)]
  · refine List.map_congr_left fun i hi => ?_
    rw [List.mem_range'] at hi
    have hiL : i < L := by omega
    have hiL' : L + 1 - 1 - i < L := by omega
    rw [rotStart_getD L k i hiL, rotStart_getD L k _ hiL']
    have : L + 1 - 1 - i = L - i := by omega
    rw [this]

/- ── Modular-arithmetic facts about `rrVal` ── -/

theorem rrVal_le {L : Nat} (hL : 0 < L) (k i : Nat) : rrVal L k i ≤ L := by
  have := Nat.mod_lt (i + k * (L - 1)) hL
  unfold rrVal; omega

theorem rrVal_pos (L k i : Nat) : 1 ≤ rrVal L k i := by unfold rrVal; omega

theorem rrVal_cast {L : Nat} (hL : 0 < L) (k i : Nat) :
    ((rrVal L k i : Nat) : ZMod L) = (i : ZMod L) - (k : ZMod L) + 1 := by
  unfold rrVal
  rw [Nat.cast_add, Nat.cast_one, ZMod.natCast_mod, Nat.cast_add, Nat.cast_mul,
    Nat.cast_sub hL, ZMod.natCast_self, Nat.cast_one]
  ring

theorem zmod_nat_inj {L : Nat} (hL : 0 < L) {a b : Nat} (ha : a < L) (hb : b < L)
    (h : (a : ZMod L) = (b : ZMod L)) : a = b := by
  haveI : NeZero L := ⟨hL.ne'⟩
  have hv := congrArg ZMod.val h
  rwa [ZMod.val_cast_of_lt ha, ZMod.val_cast_of_lt hb] at hv

theorem zmod_nat_inj_of_Icc {L : Nat} (hL : 0 < L) {a b : Nat}
    (ha1 : 1 ≤ a) (haL : a ≤ L) (hb1 : 1 ≤ b) (hbL : b ≤ L)
    (h : (a : ZMod L) = (b : ZMod L)) : a = b := by
  have hsub : ((a - 1 : ℕ) : ZMod L) = ((b - 1 : ℕ) : ZMod L) := by
    rw [Nat.cast_sub ha1, Nat.cast_sub hb1, h]
  have := zmod_nat_inj hL (a := a - 1) (b := b - 1) (by omega) (by omega) hsub
  omega

theorem rrVal_inj {L : Nat} (hL : 0 < L) {k i j : Nat} (hi : i < L) (hj : j < L)
    (h : rrVal L k i = rrVal L k j) : i = j := by
  have h1 := rrVal_cast hL k i
  have h2 := rrVal_cast hL k j
  rw [h, h2] at h1
  have hcast : (i : ZMod L) = (j : ZMod L) := by linear_combination -h1
  exact zmod_nat_inj hL hi hj hcast

theorem rrVal_eq_iff {L : Nat} (hL : 0 < L) {k i v : Nat} (hv1 : 1 ≤ v) (hvL : v ≤ L) :
    rrVal L k i = v ↔ ((i : ZMod L) = (v : ZMod L) - 1 + (k : ZMod L)) := by
  constructor
  · intro h
    have h1 := rrVal_cast hL k i
    rw [h] at h1
    linear_combination -h1
  · intro h
    refine zmod_nat_inj_of_Icc hL (rrVal_pos L k i) (rrVal_le hL k i) hv1 hvL ?_
    rw [rrVal_cast hL, h]
    ring

theorem rrVal_solve {L : Nat} (hL : 0 < L) (k : Nat) {v : Nat} (hv1 : 1 ≤ v) (hvL : v ≤ L) :
    rrVal L k ((v - 1 + k) % L) = v := by
  rw [rrVal_eq_iff hL hv1 hvL, ZMod.natCast_mod, Nat.cast_add, Nat.cast_sub hv1]
  push_cast
  ring

theorem two_mul_cancel_zmod {L : Nat} (hodd : L % 2 = 1) {x y : ZMod L}
    (h : 2 * x = 2 * y) : x = y := by
  have hL : 0 < L := by omega
  haveI : NeZero L := ⟨hL.ne'⟩
  have hcop : Nat.Coprime 2 L := Nat.coprime_two_left.mpr (Nat.odd_iff.mpr hodd)
  have hu : IsUnit ((2 : ℕ) : ZMod L) := (ZMod.isUnit_iff_coprime 2 L).mpr hcop
  have hu' : IsUnit (2 : ZMod L) := by
    have : ((2 : ℕ) : ZMod L) = (2 : ZMod L) := by push_cast; rfl
    rwa [this] at hu
  exact hu'.mul_left_cancel h

theorem rrVal_pair_sum {L : Nat} (hL : 0 < L) (k : Nat) {i : Nat} (hi : i ≤ L) :
    ((rrVal L k i : Nat) : ZMod L) + ((rrVal L k (L - i) : Nat) : ZMod L)
      = 2 - 2 * (k : ZMod L) := by
  rw [rrVal_cast hL, rrVal_cast hL, Nat.cast_sub hi, ZMod.natCast_self]
  ring

/- ── Per-round combinatorics ── -/

theorem rrRound_mem_bounds {L : Nat} (hodd : L % 2 = 1) {k : Nat} {p : Nat × Nat}
    (hp : p ∈ rrRound L k) : p.1 ≤ L ∧ p.2 ≤ L ∧ p.1 ≠ p.2 := by
  have hL : 0 < L := by omega
  rcases List.mem_cons.mp hp with h | h
  · subst h
    refine ⟨by omega, rrVal_le hL k 0, ?_⟩
    have := rrVal_pos L k 0
    simp only [ne_eq]
    omega
  · obtain ⟨i, hi, rfl⟩ := List.mem_map.mp h
    rw [List.mem_range'_1] at hi
    have hiL : i < L := by omega
    have hLiL : L - i < L := by omega
    refine ⟨rrVal_le hL k i, rrVal_le hL k (L - i), ?_⟩
    intro hEq
    have := rrVal_inj hL hiL hLiL hEq
    omega

/-- In every round each index `t ≤ L` occurs in exactly one pairing. -/
theorem rrRound_occ {L : Nat} (hodd : L % 2 = 1) (k : Nat) {t : Nat} (ht : t ≤ L) :
    (rrRound L k).countP (fun p => p.1 == t || p.2 == t) = 1 := by
  have hL : 0 < L := by omega
  rw [rrRound, List.countP_cons, List.countP_map]
  rcases Nat.eq_zero_or_pos t with rfl | ht1
  · have hhead : ((0, rrVal L k 0).1 == 0 || (0, rrVal L k 0).2 == 0) = true := by
      simp
    rw [hhead]
    have hinner : (List.range' 1 ((L + 1) / 2 - 1)).countP
        ((fun p : Nat × Nat => p.1 == 0 || p.2 == 0) ∘
          fun i => (rrVal L k i, rrVal L k (L - i))) = 0 := by
      rw [List.countP_eq_zero]
      intro i _
      have h1 := rrVal_pos L k i
      have h2 := rrVal_pos L k (L - i)
      simp only [Function.comp_apply, Bool.or_eq_true, beq_iff_eq]
      omega
    rw [hinner]
    simp
  · set j := (t - 1 + k) % L with hjdef
    have hj : j < L := Nat.mod_lt _ hL
    have hrj : rrVal L k j = t := rrVal_solve hL k ht1 ht
    have huniq : ∀ i, i < L → rrVal L k i = t → i = j := by
      intro i hi hvi
      exact rrVal_inj hL hi hj (hvi.trans hrj.symm)
    have hC : (L + 1) / 2 - 1 = (L - 1) / 2 := by omega
    -- inner count reduces to counting the unique solving index
    have hcongr : (List.range' 1 ((L + 1) / 2 - 1)).countP
        ((fun p : Nat × Nat => p.1 == t || p.2 == t) ∘
          fun i => (rrVal L k i, rrVal L k (L - i)))
        = (List.range' 1 ((L + 1) / 2 - 1)).countP
            (fun i => i == (if j ≤ (L + 1) / 2 - 1 then j else L - j)) := by
      refine List.countP_congr fun i hmem => ?_
      rw [List.mem_range'_1] at hmem
      have hiL : i < L := by omega
      have hLiL : L - i < L := by omega
      simp only [Function.comp_apply, Bool.or_eq_true, beq_iff_eq]
      constructor
      · rintro (h1 | h2)
        · have := huniq i hiL h1
          subst this
          rw [if_pos (by omega)]
        · have := huniq (L - i) hLiL h2
          split <;> omega
      · intro hif
        split at hif
        · subst hif
          exact Or.inl hrj
        · have hsolve : rrVal L k (L - i) = t := by
            have : L - i = j := by omega
            rw [this]; exact hrj
          exact Or.inr hsolve
    rw [hcongr]
    rcases Nat.eq_zero_or_pos j with hj0 | hj1
    · -- the solving index is the anchor partner slot: head counts, inner is empty
      have hhead : ((0, rrVal L k 0).1 == t || (0, rrVal L k 0).2 == t) = true := by
        have : rrVal L k 0 = t := by rw [← hj0]; exact hrj
        simp [this]
      rw [hhead]
      have : (List.range' 1 ((L + 1) / 2 - 1)).countP
          (fun i => i == (if j ≤ (L + 1) / 2 - 1 then j else L - j)) = 0 := by
        rw [List.countP_eq_zero]
        intro i hmem
        rw [List.mem_range'_1] at hmem
        simp only [beq_iff_eq]
        split <;> omega
      rw [this]
      simp
    · have hhead : ((0, rrVal L k 0).1 == t || (0, rrVal L k 0).2 == t) = false := by
        simp only [Bool.or_eq_false_iff, beq_eq_false_iff_ne, ne_eq]
        constructor
        · omega
        · intro hv
          have := huniq 0 hL hv
          omega
      rw [hhead]
      have hmemj : (if j ≤ (L + 1) / 2 - 1 then j else L - j) ∈
          List.range' 1 ((L + 1) / 2 - 1) := by
        rw [List.mem_range'_1]
        split <;> omega
      have hcount : (List.range' 1 ((L + 1) / 2 - 1)).countP
          (fun i => i == (if j ≤ (L + 1) / 2 - 1 then j else L - j)) = 1 := by
        rw [← List.count_eq_countP]
        exact List.count_eq_one_of_mem (List.nodup_range' 1 _) hmemj
      rw [hcount]
      simp

/- ── Pair uniqueness and existence across rounds ── -/

theorem rrVal_anchor_inj {L : Nat} (hL : 0 < L) {k k' : Nat} (hk : k < L) (hk' : k' < L)
    (h : rrVal L k 0 = rrVal L k' 0) : k = k' := by
  have h1 := rrVal_cast hL k 0
  have h2 := rrVal_cast hL k' 0
  rw [h, h2] at h1
  have hc : (k : ZMod L) = (k' : ZMod L) := by linear_combination h1
  exact zmod_nat_inj hL hk hk' hc

theorem rr_sum_k_eq {L : Nat} (hodd : L % 2 = 1) {k k' i i' : Nat} (hk : k < L) (hk' : k' < L)
    (hi : i ≤ L) (hi' : i' ≤ L)
    (hsum : rrVal L k i + rrVal L k (L - i) = rrVal L k' i' + rrVal L k' (L - i')) :
    k = k' := by
  have hL : 0 < L := by omega
  have h1 := rrVal_pair_sum hL k hi
  have h2 := rrVal_pair_sum hL k' hi'
  have hc : ((rrVal L k i : ℕ) : ZMod L) + ((rrVal L k (L - i) : ℕ) : ZMod L)
      = ((rrVal L k' i' : ℕ) : ZMod L) + ((rrVal L k' (L - i') : ℕ) : ZMod L) := by
    rw [← Nat.cast_add, ← Nat.cast_add, hsum]
  rw [h1, h2] at hc
  have h2k : (2 : ZMod L) * (k : ZMod L) = 2 * (k' : ZMod L) := by linear_combination -hc
  exact zmod_nat_inj hL hk hk' (two_mul_cancel_zmod hodd h2k)

/-- The unordered pairings of one round are pairwise distinct. -/
theorem rrRound_sym_nodup {L : Nat} (hodd : L % 2 = 1) (k : Nat) :
    ((rrRound L k).map (fun p => s(p.1, p.2))).Nodup := by
  have hL : 0 < L := by omega
  rw [rrRound, List.map_cons, List.map_map, List.nodup_cons]
  constructor
  · intro hmem
    obtain ⟨i, hi, hEq⟩ := List.mem_map.mp hmem
    rw [List.mem_range'_1] at hi
    simp only [Function.comp_apply, Sym2.eq_iff] at hEq
    have ha := rrVal_pos L k i
    have hb := rrVal_pos L k (L - i)
    rcases hEq with ⟨h1, _⟩ | ⟨_, h2⟩
    · omega
    · omega
  · refine List.Nodup.map_on ?_ (List.nodup_range' 1 _)
    intro i hi i' hi' hEq
    rw [List.mem_range'_1] at hi hi'
    simp only [Function.comp_apply] at hEq
    rw [Sym2.eq_iff] at hEq
    rcases hEq with ⟨h1, _⟩ | ⟨h1, _⟩
    · exact rrVal_inj hL (by omega) (by omega) h1
    · have := rrVal_inj hL (by omega) (by omega) h1
      omega

/-- One unordered pairing never occurs in two distinct rounds. -/
theorem rrRound_sym_disjoint {L : Nat} (hodd : L % 2 = 1) {k k' : Nat}
    (hk : k < L) (hk' : k' < L) (hne : k ≠ k') {z : Sym2 Nat}
    (hz : z ∈ (rrRound L k).map (fun p => s(p.1, p.2))) :
    z ∉ (rrRound L k').map (fun p => s(p.1, p.2)) := by
  have hL : 0 < L := by omega
  intro hz'
  obtain ⟨p, hp, hpz⟩ := List.mem_map.mp hz
  obtain ⟨q, hq, hqz⟩ := List.mem_map.mp hz'
  have hpq : s(p.1, p.2) = s(q.1, q.2) := hpz.trans hqz.symm
  rcases List.mem_cons.mp hp with hp1 | hp1 <;> rcases List.mem_cons.mp hq with hq1 | hq1
  · -- anchor vs anchor
    subst hp1; subst hq1
    rw [Sym2.eq_iff] at hpq
    have ha := rrVal_pos L k 0
    have hb := rrVal_pos L k' 0
    rcases hpq with ⟨_, h2⟩ | ⟨h1, h2⟩
    · exact hne (rrVal_anchor_inj hL hk hk' h2)
    · omega
  · -- anchor vs inner
    subst hp1
    obtain ⟨i, hi, rfl⟩ := List.mem_map.mp hq1
    rw [Sym2.eq_iff] at hpq
    have ha := rrVal_pos L k' i
    have hb := rrVal_pos L k' (L - i)
    rcases hpq with ⟨h1, _⟩ | ⟨_, h2⟩
    · omega
    · omega
  · -- inner vs anchor
    subst hq1
    obtain ⟨i, hi, rfl⟩ := List.mem_map.mp hp1
    rw [Sym2.eq_iff] at hpq
    have ha := rrVal_pos L k i
    have hb := rrVal_pos L k (L - i)
    rcases hpq with ⟨h1, _⟩ | ⟨h1, _⟩
    · omega
    · omega
  · -- inner vs inner
    obtain ⟨i, hi, rfl⟩ := List.mem_map.mp hp1
    obtain ⟨i', hi', rfl⟩ := List.mem_map.mp hq1
    rw [List.mem_range'_1] at hi hi'
    rw [Sym2.eq_iff] at hpq
    have hsum : rrVal L k i + rrVal L k (L - i)
        = rrVal L k' i' + rrVal L k' (L - i') := by
      rcases hpq with ⟨h1, h2⟩ | ⟨h1, h2⟩ <;> omega
    exact hne (rr_sum_k_eq hodd hk hk' (by omega) (by omega) hsum)

/-- Every unordered pair of distinct indices in `[0, L]` occurs in some round. -/
theorem rrRound_sym_exists {L : Nat} (hodd : L % 2 = 1) {a b : Nat}
    (ha : a ≤ L) (hb : b ≤ L) (hne : a ≠ b) :
    ∃ k, k < L ∧ s(a, b) ∈ (rrRound L k).map (fun p => s(p.1, p.2)) := by
  have hL : 0 < L := by omega
  -- the anchor case, proved once for `0` paired with a positive value
  have anchor : ∀ w, 1 ≤ w → w ≤ L →
      ∃ k, k < L ∧ s(0, w) ∈ (rrRound L k).map (fun p => s(p.1, p.2)) := by
    intro w hw1 hwL
    refine ⟨(L + 1 - w) % L, Nat.mod_lt _ hL, ?_⟩
    have hval : rrVal L ((L + 1 - w) % L) 0 = w := by
      rw [rrVal_eq_iff hL hw1 hwL, ZMod.natCast_mod, Nat.cast_sub (by omega),
        Nat.cast_add, ZMod.natCast_self]
      push_cast
      ring
    refine List.mem_map.mpr ⟨(0, rrVal L ((L + 1 - w) % L) 0), List.mem_cons_self _ _, ?_⟩
    rw [hval]
  rcases Nat.eq_zero_or_pos a with rfl | ha1
  · exact anchor b (by omega) hb
  rcases Nat.eq_zero_or_pos b with rfl | hb1
  · obtain ⟨k, hk, hmem⟩ := anchor a ha1 ha
    exact ⟨k, hk, by rwa [Sym2.eq_swap] at hmem⟩
  -- both positive: solve for the round index
  set k := ((2 * L + 2 - a - b) * ((L + 1) / 2)) % L with hkdef
  have hk : k < L := Nat.mod_lt _ hL
  have h2k : (2 : ZMod L) * (k : ZMod L) = 2 - (a : ZMod L) - (b : ZMod L) := by
    rw [hkdef, ZMod.natCast_mod, Nat.cast_mul]
    have hhalf : ((2 : ZMod L)) * (((L + 1) / 2 : ℕ) : ZMod L) = 1 := by
      have h2 : 2 * ((L + 1) / 2) = L + 1 := by omega
      have : ((2 * ((L + 1) / 2) : ℕ) : ZMod L) = ((L + 1 : ℕ) : ZMod L) := by rw [h2]
      push_cast at this
      rw [ZMod.natCast_self] at this
      simpa using this
    have hfront : (((2 * L + 2 - a - b : ℕ)) : ZMod L) = 2 - (a : ZMod L) - (b : ZMod L) := by
      rw [Nat.cast_sub (by omega), Nat.cast_sub (by omega)]
      push_cast [ZMod.natCast_self]
      ring
    calc (2 : ZMod L) * (((2 * L + 2 - a - b : ℕ) : ZMod L) * (((L + 1) / 2 : ℕ) : ZMod L))
        = ((2 * L + 2 - a - b : ℕ) : ZMod L) * ((2 : ZMod L) * (((L + 1) / 2 : ℕ) : ZMod L)) := by
          ring
      _ = ((2 * L + 2 - a - b : ℕ) : ZMod L) := by rw [hhalf, mul_one]
      _ = 2 - (a : ZMod L) - (b : ZMod L) := hfront
  set i := (a - 1 + k) % L with hidef
  have hi : i < L := Nat.mod_lt _ hL
  have hvi : rrVal L k i = a := rrVal_solve hL k ha1 ha
  have hvLi : rrVal L k (L - i) = b := by
    rw [rrVal_eq_iff hL hb1 hb, Nat.cast_sub (le_of_lt hi), ZMod.natCast_self,
      hidef, ZMod.natCast_mod, Nat.cast_add, Nat.cast_sub ha1]
    push_cast
    linear_combination -h2k
  have hi1 : 1 ≤ i := by
    by_contra h0
    have hi0 : i = 0 := by omega
    have hL0 : rrVal L k L = rrVal L k 0 := by
      unfold rrVal
      simp [Nat.add_mod_left]
    have hb' : rrVal L k L = b := by
      rw [hi0, Nat.sub_zero] at hvLi
      exact hvLi
    rw [hi0] at hvi
    rw [hL0, hvi] at hb'
    exact hne hb'
  rcases Nat.lt_or_ge i ((L + 1) / 2) with hsmall | hbig
  · refine ⟨k, hk, List.mem_map.mpr ⟨(rrVal L k i, rrVal L k (L - i)), ?_, by rw [hvi, hvLi]⟩⟩
    refine List.mem_cons_of_mem _ (List.mem_map.mpr ⟨i, ?_, rfl⟩)
    rw [List.mem_range'_1]
    omega
  · refine ⟨k, hk, List.mem_map.mpr ⟨(rrVal L k (L - i), rrVal L k (L - (L - i))), ?_, ?_⟩⟩
    · refine List.mem_cons_of_mem _ (List.mem_map.mpr ⟨L - i, ?_, rfl⟩)
      rw [List.mem_range'_1]
      omega
    · have hLLi : L - (L - i) = i := by omega
      rw [hLLi, hvi, hvLi, Sym2.eq_swap]

/- ── List plumbing for the emission analysis ── -/

theorem insertDescBy_perm (key : α → Nat) (x : α) (l : List α) :
    (insertDescBy key x l).Perm (x :: l) := by
  induction l with
  | nil => exact List.Perm.refl _
  | cons y ys ih =>
    rw [insertDescBy]
    split
    · exact ((ih.cons y).trans (List.Perm.swap x y ys))
    · exact List.Perm.refl _

theorem sortDescBy_perm (key : α → Nat) (l : List α) : (sortDescBy key l).Perm l := by
  induction l with
  | nil => exact List.Perm.refl _
  | cons x xs ih => exact (insertDescBy_perm key x (sortDescBy key xs)).trans (ih.cons x)

theorem length_filterMap_eq_countP (f : α → Option β) (l : List α) :
    (l.filterMap f).length = l.countP (fun a => (f a).isSome) := by
  induction l with
  | nil => rfl
  | cons a l ih =>
    rw [List.filterMap_cons, List.countP_cons]
    cases h : f a <;> simp [h, ih]

theorem countP_filterMap_eq (f : α → Option β) (p : β → Bool) (l : List α) :
    (l.filterMap f).countP p = l.countP (fun a => ((f a).map p).getD false) := by
  induction l with
  | nil => rfl
  | cons a l ih =>
    rw [List.filterMap_cons, List.countP_cons]
    cases h : f a <;> simp [h, ih, List.countP_cons]

theorem countP_add_disjoint (p q : α → Bool) (l : List α)
    (h : ∀ x ∈ l, ¬(p x = true ∧ q x = true)) :
    l.countP p + l.countP q = l.countP (fun x => p x || q x) := by
  induction l with
  | nil => rfl
  | cons a l ih =>
    have ha := h a (List.mem_cons_self a l)
    have ih' := ih (fun x hx => h x (List.mem_cons_of_mem a hx))
    rw [List.countP_cons, List.countP_cons, List.countP_cons]
    cases hp : p a <;> cases hq : q a <;> simp [hp, hq] at ha ⊢ <;> omega

theorem enum_map_of_ignore_idx (l : List α) (h : Nat × α → β) (g : α → β)
    (hfg : ∀ i x, h (i, x) = g x) : l.enum.map h = l.map g := by
  have h1 : l.enum.map h = l.enum.map (g ∘ Prod.snd) := by
    refine List.map_congr_left fun p _ => ?_
    cases p
    exact hfg _ _
  rw [h1, ← List.map_map, List.enum_map_snd]

/-- The home/away id pairs of one emission pass, round by round. -/
theorem emitPass_ids (teams : List (Option Team)) (cid sid : Nat) (sd iv : Int)
    (off : Nat) (swap : Bool) (rounds : List (List (Nat × Nat))) :
    (emitPass teams cid sid sd iv off swap rounds).map
        (fun m => (m.home_team_id, m.away_team_id))
      = (rounds.map (fun rps => rps.filterMap (fun p =>
          match teams.getD p.1 none, teams.getD p.2 none with
          | some home, some away =>
              some (some (if swap then away.id else home.id),
                    some (if swap then home.id else away.id))
          | _, _ => none))).flatten := by
  rw [emitPass, List.map_flatten, List.map_map]
  refine congrArg _ ?_
  refine enum_map_of_ignore_idx _ _ _ fun i rps => ?_
  simp only [Function.comp_apply]
  rw [List.map_filterMap]
  refine List.filterMap_congr fun p _ => ?_
  cases teams.getD p.1 none <;> cases teams.getD p.2 none <;> rfl

/-- Counting emitted matches of one pass through a predicate on the
(home, away) id pair. -/
theorem emitPass_countP (teams : List (Option Team)) (cid sid : Nat) (sd iv : Int)
    (off : Nat) (swap : Bool) (rounds : List (List (Nat × Nat)))
    (Q : Option Nat × Option Nat → Bool) :
    (emitPass teams cid sid sd iv off swap rounds).countP
        (fun m => Q (m.home_team_id, m.away_team_id))
      = (rounds.map (fun rps => rps.countP (fun p =>
          match teams.getD p.1 none, teams.getD p.2 none with
          | some home, some away =>
              Q (some (if swap then away.id else home.id),
                 some (if swap then home.id else away.id))
          | _, _ => false))).sum := by
  have hmap : (emitPass teams cid sid sd iv off swap rounds).countP
      (fun m => Q (m.home_team_id, m.away_team_id))
      = ((emitPass teams cid sid sd iv off swap rounds).map
          (fun m => (m.home_team_id, m.away_team_id))).countP Q := by
    rw [List.countP_map]
    rfl
  rw [hmap, emitPass_ids, List.countP_flatten, List.map_map]
  refine congrArg _ (List.map_congr_left fun rps _ => ?_)
  simp only [Function.comp_apply]
  rw [countP_filterMap_eq]
  refine List.countP_congr fun p _ => ?_
  cases teams.getD p.1 none <;> cases teams.getD p.2 none <;> exact Iff.rfl

/-- Length of one emission pass: one match per pairing whose two teams exist. -/
theorem emitPass_length (teams : List (Option Team)) (cid sid : Nat) (sd iv : Int)
    (off : Nat) (swap : Bool) (rounds : List (List (Nat × Nat))) :
    (emitPass teams cid sid sd iv off swap rounds).length
      = (rounds.map (fun rps => rps.countP (fun p =>
          match teams.getD p.1 none, teams.getD p.2 none with
          | some _, some _ => true
          | _, _ => false))).sum := by
  have h1 : (emitPass teams cid sid sd iv off swap rounds).length
      = ((emitPass teams cid sid sd iv off swap rounds).map
          (fun m => (m.home_team_id, m.away_team_id))).length := by
    rw [List.length_map]
  rw [h1, emitPass_ids, List.length_flatten, List.map_map]
  refine congrArg _ (List.map_congr_left fun rps _ => ?_)
  simp only [Function.comp_apply]
  rw [length_filterMap_eq_countP]
  refine List.countP_congr fun p _ => ?_
  cases teams.getD p.1 none <;> cases teams.getD p.2 none <;> exact Iff.rfl

theorem getD_map_some (ts : List Team) (i : Nat) :
    (ts.map some).getD i none = ts[i]? := by
  simp [List.getD_eq_getElem?_getD, List.getElem?_map]
  cases ts[i]? <;> rfl

theorem getD_pad_lt (ts : List Team) {i : Nat} (h : i < ts.length) :
    (ts.map some ++ [none]).getD i none = some ts[i] := by
  rw [List.getD_eq_getElem?_getD, List.getElem?_append_left (by simpa using h),
    List.getElem?_map, List.getElem?_eq_getElem h]
  rfl

theorem getD_pad_last (ts : List Team) :
    (ts.map some ++ [none]).getD ts.length none = none := by
  rw [List.getD_eq_getElem?_getD, List.getElem?_append_right (by simp)]
  simp

/- ── The emitted double round-robin, named for analysis ── -/

/-- Lines 189-191 of the embedding: the (possibly bye-padded) team list. -/
def rrTeamsPadded (ts : List Team) : List (Option Team) :=
  if ts.length % 2 ≠ 0 then ts.map some ++ [none] else ts.map some

/-- The county-sorted rounds the generator schedules. -/
def rrSortedRounds (ts : List Team) : List (List (Nat × Nat)) :=
  sortDescBy (county_score (rrTeamsPadded ts)) (rrRounds (rrTeamsPadded ts).length)

/-- The full emitted match list: pass A then pass B with swapped home/away. -/
def rrEmitted (ts : List Team) (cid sid : Nat) (sd iv : Int) : List Match :=
  emitPass (rrTeamsPadded ts) cid sid sd iv 0 false (rrSortedRounds ts) ++
  emitPass (rrTeamsPadded ts) cid sid sd iv (rrSortedRounds ts).length true (rrSortedRounds ts)

theorem rrTeamsPadded_length_even (ts : List Team) :
    (rrTeamsPadded ts).length % 2 = 0 ∧ ts.length ≤ (rrTeamsPadded ts).length ∧
      (rrTeamsPadded ts).length ≤ ts.length + 1 := by
  rw [rrTeamsPadded]
  split <;> simp <;> omega

theorem generate_round_robin_success {db : DB} {cid : Nat} {sd iv now : Int}
    {db' : DB} {ms : List Match} {comp : Competition}
    (hc : dbGetCompetition db cid = some comp)
    (h : generate_round_robin db cid sd iv now = (db', ms, none)) :
    comp.type = CompetitionType.REGIONAL ∧ 2 ≤ comp.teams.length ∧
      ms = rrEmitted comp.teams cid comp.season_id sd iv := by
  rw [generate_round_robin] at h
  split at h
  next heq => rw [hc] at heq; exact absurd heq (by simp)
  next competition heq =>
    rw [hc] at heq
    injection heq with heq'
    subst heq'
    split_ifs at h with h1 h2 h3 hpar
    · simp at h
    · simp at h
    · simp at h
    · simp only [Prod.mk.injEq] at h
      refine ⟨not_not.mp h1, by omega, ?_⟩
      rw [rrEmitted, rrSortedRounds, rrTeamsPadded, if_pos hpar]
      exact h.2.1.symm
    · simp only [Prod.mk.injEq] at h
      refine ⟨not_not.mp h1, by omega, ?_⟩
      rw [rrEmitted, rrSortedRounds, rrTeamsPadded, if_neg hpar]
      exact h.2.1.symm

theorem sum_map_add (l : List α) (f g : α → Nat) :
    (l.map f).sum + (l.map g).sum = (l.map (fun x => f x + g x)).sum := by
  induction l with
  | nil => rfl
  | cons a l ih => simp only [List.map_cons, List.sum_cons]; omega

/-- Counting the emitted matches by a predicate on the (home, away) id pair:
one term per circle-method round, one summand per pass. -/
theorem rrEmitted_countP (ts : List Team) (cid sid : Nat) (sd iv : Int)
    (Q : Option Nat × Option Nat → Bool) :
    (rrEmitted ts cid sid sd iv).countP (fun m => Q (m.home_team_id, m.away_team_id))
      = ((List.range ((rrTeamsPadded ts).length - 1)).map (fun k =>
          (rrRound ((rrTeamsPadded ts).length - 1) k).countP (fun p =>
            match (rrTeamsPadded ts).getD p.1 none, (rrTeamsPadded ts).getD p.2 none with
            | some home, some away => Q (some home.id, some away.id)
            | _, _ => false)
          + (rrRound ((rrTeamsPadded ts).length - 1) k).countP (fun p =>
            match (rrTeamsPadded ts).getD p.1 none, (rrTeamsPadded ts).getD p.2 none with
            | some home, some away => Q (some away.id, some home.id)
            | _, _ => false))).sum := by
  classical
  rw [rrEmitted, List.countP_append, emitPass_countP, emitPass_countP]
  have hperm : (rrSortedRounds ts).Perm (rrRounds (rrTeamsPadded ts).length) := by
    rw [rrSortedRounds]
    exact sortDescBy_perm _ _
  rcases (by omega : 2 ≤ (rrTeamsPadded ts).length ∨ (rrTeamsPadded ts).length < 2)
      with h2 | h2
  · rw [(hperm.map _).sum_eq, (hperm.map _).sum_eq,
      rrRounds_eq _ h2, List.map_map, List.map_map, sum_map_add]
    refine congrArg _ (List.map_congr_left fun k _ => ?_)
    simp only [Function.comp_apply]
    congr 1
  · -- degenerate team lists: both sides are empty sums
    have hrr : rrRounds (rrTeamsPadded ts).length = [] := by
      interval_cases h : (rrTeamsPadded ts).length <;> rfl
    rw [(hperm.map _).sum_eq, (hperm.map _).sum_eq, hrr]
    have h0 : (rrTeamsPadded ts).length - 1 = 0 := by omega
    rw [h0]
    rfl

/-- Length of the emitted match list, round by round. -/
theorem rrEmitted_length (ts : List Team) (cid sid : Nat) (sd iv : Int) :
    (rrEmitted ts cid sid sd iv).length
      = 2 * ((List.range ((rrTeamsPadded ts).length - 1)).map (fun k =>
          (rrRound ((rrTeamsPadded ts).length - 1) k).countP (fun p =>
            match (rrTeamsPadded ts).getD p.1 none, (rrTeamsPadded ts).getD p.2 none with
            | some _, some _ => true
            | _, _ => false))).sum := by
  classical
  rw [rrEmitted, List.length_append, emitPass_length, emitPass_length]
  have hperm : (rrSortedRounds ts).Perm (rrRounds (rrTeamsPadded ts).length) := by
    rw [rrSortedRounds]
    exact sortDescBy_perm _ _
  rcases (by omega : 2 ≤ (rrTeamsPadded ts).length ∨ (rrTeamsPadded ts).length < 2)
      with h2 | h2
  · rw [(hperm.map _).sum_eq, rrRounds_eq _ h2, List.map_map]
    simp only [Function.comp_def]
    omega
  · have hrr : rrRounds (rrTeamsPadded ts).length = [] := by
      interval_cases h : (rrTeamsPadded ts).length <;> rfl
    rw [(hperm.map _).sum_eq, hrr]
    have h0 : (rrTeamsPadded ts).length - 1 = 0 := by omega
    rw [h0]
    rfl

/-- Summed over all rounds, each unordered pair of distinct indices in
`[0, L]` is paired up exactly once. -/
theorem rrRounds_sym_count {L : Nat} (hodd : L % 2 = 1) {a b : Nat}
    (ha : a ≤ L) (hb : b ≤ L) (hne : a ≠ b) :
    ((List.range L).map (fun k =>
      (rrRound L k).countP (fun p => s(p.1, p.2) == s(a, b)))).sum = 1 := by
  classical
  have hchain : ((List.range L).map (fun k =>
      (rrRound L k).countP (fun p => s(p.1, p.2) == s(a, b)))).sum
      = (((List.range L).map (fun k =>
          (rrRound L k).map (fun p => s(p.1, p.2)))).flatten).count s(a, b) := by
    rw [List.count_eq_countP, List.countP_flatten, List.map_map]
    refine congrArg _ (List.map_congr_left fun k _ => ?_)
    simp only [Function.comp_apply]
    rw [List.countP_map]
    rfl
  rw [hchain]
  refine List.count_eq_one_of_mem ?_ ?_
  · rw [List.nodup_flatten]
    constructor
    · intro l hl
      obtain ⟨k, _, rfl⟩ := List.mem_map.mp hl
      exact rrRound_sym_nodup hodd k
    · rw [List.pairwise_map]
      refine List.Pairwise.imp_of_mem ?_ (List.pairwise_lt_range L)
      intro k k' hk hk' hlt z hz hz'
      exact rrRound_sym_disjoint hodd (List.mem_range.mp hk) (List.mem_range.mp hk')
        (Nat.ne_of_lt hlt) hz hz'
  · obtain ⟨k, hk, hmem⟩ := rrRound_sym_exists hodd ha hb hne
    exact List.mem_flatten.mpr ⟨_, List.mem_map.mpr ⟨k, List.mem_range.mpr hk, rfl⟩, hmem⟩

/-- Summed over all rounds, each index in `[0, L]` occurs `L` times. -/
theorem rrRounds_occ_count {L : Nat} (hodd : L % 2 = 1) {t : Nat} (ht : t ≤ L) :
    ((List.range L).map (fun k =>
      (rrRound L k).countP (fun p => p.1 == t || p.2 == t))).sum = L := by
  have hcongr : (List.range L).map (fun k =>
      (rrRound L k).countP (fun p => p.1 == t || p.2 == t))
      = (List.range L).map (fun _ => 1) :=
    List.map_congr_left fun k _ => rrRound_occ hodd k ht
  rw [hcongr]
  simp [List.map_const']

/-- Length of a single pass over the schedule. -/
theorem rrPass_length (ts : List Team) (cid sid : Nat) (sd iv : Int) (off : Nat)
    (swap : Bool) :
    (emitPass (rrTeamsPadded ts) cid sid sd iv off swap (rrSortedRounds ts)).length
      = ((List.range ((rrTeamsPadded ts).length - 1)).map (fun k =>
          (rrRound ((rrTeamsPadded ts).length - 1) k).countP (fun p =>
            match (rrTeamsPadded ts).getD p.1 none, (rrTeamsPadded ts).getD p.2 none with
            | some _, some _ => true
            | _, _ => false))).sum := by
  classical
  rw [emitPass_length]
  have hperm : (rrSortedRounds ts).Perm (rrRounds (rrTeamsPadded ts).length) := by
    rw [rrSortedRounds]
    exact sortDescBy_perm _ _
  rcases (by omega : 2 ≤ (rrTeamsPadded ts).length ∨ (rrTeamsPadded ts).length < 2)
      with h2 | h2
  · rw [(hperm.map _).sum_eq, rrRounds_eq _ h2, List.map_map]
    rfl
  · have hrr : rrRounds (rrTeamsPadded ts).length = [] := by
      interval_cases h : (rrTeamsPadded ts).length <;> rfl
    rw [(hperm.map _).sum_eq, hrr]
    have h0 : (rrTeamsPadded ts).length - 1 = 0 := by omega
    rw [h0]
    rfl

/- ── Even team count: reduction of match counts to index counts ── -/

/-- Team id at list index `i` (0 out of range). -/
def tidOf (ts : List Team) (i : Nat) : Nat := (ts.map Team.id).getD i 0

theorem tidOf_lt (ts : List Team) {i : Nat} (h : i < ts.length) : tidOf ts i = ts[i].id := by
  rw [tidOf, List.getD_eq_getElem _ _ (by simpa using h), List.getElem_map]

theorem evenRound_countP_fst (ts : List Team) {L : Nat}
    (hpad : rrTeamsPadded ts = ts.map some) (hlen : ts.length = L + 1)
    (hLodd : L % 2 = 1) (k : Nat) (Q : Option Nat × Option Nat → Bool)
    (R : Nat × Nat → Bool)
    (hQR : ∀ i j, i < ts.length → j < ts.length →
      (Q (some (tidOf ts i), some (tidOf ts j)) = true ↔ R (i, j) = true)) :
    (rrRound L k).countP (fun p =>
      match (rrTeamsPadded ts).getD p.1 none, (rrTeamsPadded ts).getD p.2 none with
      | some home, some away => Q (some home.id, some away.id)
      | _, _ => false)
    = (rrRound L k).countP R := by
  refine List.countP_congr fun p hp => ?_
  obtain ⟨hb1, hb2, _⟩ := rrRound_mem_bounds hLodd hp
  rcases p with ⟨i, j⟩
  simp only at hb1 hb2
  have h1 : i < ts.length := by omega
  have h2 : j < ts.length := by omega
  rw [hpad, getD_map_some, getD_map_some, List.getElem?_eq_getElem h1,
    List.getElem?_eq_getElem h2]
  show Q (some ts[i].id, some ts[j].id) = true ↔ R (i, j) = true
  rw [← tidOf_lt ts h1, ← tidOf_lt ts h2]
  exact hQR i j h1 h2

theorem evenRound_countP_snd (ts : List Team) {L : Nat}
    (hpad : rrTeamsPadded ts = ts.map some) (hlen : ts.length = L + 1)
    (hLodd : L % 2 = 1) (k : Nat) (Q : Option Nat × Option Nat → Bool)
    (R : Nat × Nat → Bool)
    (hQR : ∀ i j, i < ts.length → j < ts.length →
      (Q (some (tidOf ts j), some (tidOf ts i)) = true ↔ R (i, j) = true)) :
    (rrRound L k).countP (fun p =>
      match (rrTeamsPadded ts).getD p.1 none, (rrTeamsPadded ts).getD p.2 none with
      | some home, some away => Q (some away.id, some home.id)
      | _, _ => false)
    = (rrRound L k).countP R := by
  refine List.countP_congr fun p hp => ?_
  obtain ⟨hb1, hb2, _⟩ := rrRound_mem_bounds hLodd hp
  rcases p with ⟨i, j⟩
  simp only at hb1 hb2
  have h1 : i < ts.length := by omega
  have h2 : j < ts.length := by omega
  rw [hpad, getD_map_some, getD_map_some, List.getElem?_eq_getElem h1,
    List.getElem?_eq_getElem h2]
  show Q (some ts[j].id, some ts[i].id) = true ↔ R (i, j) = true
  rw [← tidOf_lt ts h1, ← tidOf_lt ts h2]
  exact hQR i j h1 h2


/-- C1: for every double round-robin generated by `generate_round_robin` over
`n` teams (`n` even, `n ≥ 2`, competition found, type REGIONAL, no prior
LEAGUE match — all implied by the successful return), with distinct team ids:
the total number of emitted matches is `n·(n−1)`, every team appears in
exactly `n−1` matches as home and `n−1` as away, and every ordered pair of
distinct teams appears as (home, away) in exactly one emitted match. -/
theorem C1_round_robin_even_counts {db : DB} {cid : Nat} {sd iv now : Int}
    {db' : DB} {ms : List Match} {comp : Competition}
    (hc : dbGetCompetition db cid = some comp)
    (hgen : generate_round_robin db cid sd iv now = (db', ms, none))
    (heven : comp.teams.length % 2 = 0)
    (hids : (comp.teams.map Team.id).Nodup) :
    ms.length = comp.teams.length * (comp.teams.length - 1) ∧
    (∀ t ∈ comp.teams,
      ms.countP (fun m => m.home_team_id == some t.id) = comp.teams.length - 1 ∧
      ms.countP (fun m => m.away_team_id == some t.id) = comp.teams.length - 1) ∧
    (∀ t ∈ comp.teams, ∀ u ∈ comp.teams, t.id ≠ u.id →
      ms.countP (fun m =>
        m.home_team_id == some t.id && m.away_team_id == some u.id) = 1) := by
  classical
  obtain ⟨hreg, hlen2, hms⟩ := generate_round_robin_success hc hgen
  subst hms
  set ts := comp.teams with hts
  have hpad : rrTeamsPadded ts = ts.map some := by
    rw [rrTeamsPadded, if_neg]
    omega
  have hmlen : (rrTeamsPadded ts).length = ts.length := by rw [hpad]; simp
  set L := ts.length - 1 with hLdef
  have hlen : ts.length = L + 1 := by omega
  have hLodd : L % 2 = 1 := by omega
  have hLm : (rrTeamsPadded ts).length - 1 = L := by omega
  have hinj : ∀ (i j : Nat) (hi : i < ts.length) (hj : j < ts.length),
      ts[i].id = ts[j].id → i = j := by
    intro i j hi hj hEq
    have hi2 : i < (ts.map Team.id).length := by simpa using hi
    have hj2 : j < (ts.map Team.id).length := by simpa using hj
    have h1 : (ts.map Team.id)[i] = (ts.map Team.id)[j] := by
      rw [List.getElem_map, List.getElem_map]
      exact hEq
    exact hids.getElem_inj_iff.mp h1
  refine ⟨?_, ?_, ?_⟩
  · -- total match count
    rw [rrEmitted_length, hLm]
    have hall : (List.range L).map (fun k =>
        (rrRound L k).countP (fun p =>
          match (rrTeamsPadded ts).getD p.1 none, (rrTeamsPadded ts).getD p.2 none with
          | some _, some _ => true
          | _, _ => false))
        = (List.range L).map (fun _ => (L + 1) / 2) := by
      refine List.map_congr_left fun k _ => ?_
      have hfull : ∀ p ∈ rrRound L k, (fun p : Nat × Nat =>
          match (rrTeamsPadded ts).getD p.1 none, (rrTeamsPadded ts).getD p.2 none with
          | some _, some _ => true
          | _, _ => false) p = true := by
        intro p hp
        obtain ⟨hb1, hb2, _⟩ := rrRound_mem_bounds hLodd hp
        have h1 : p.1 < ts.length := by omega
        have h2 : p.2 < ts.length := by omega
        show (match (rrTeamsPadded ts).getD p.1 none, (rrTeamsPadded ts).getD p.2 none with
          | some _, some _ => true
          | _, _ => false) = true
        rw [hpad, getD_map_some, getD_map_some, List.getElem?_eq_getElem h1,
          List.getElem?_eq_getElem h2]
      rw [List.countP_eq_length.mpr hfull, rrRound]
      simp
      omega
    rw [hall, List.map_const', List.sum_replicate, smul_eq_mul, List.length_range]
    have h2 : 2 * ((L + 1) / 2) = L + 1 := by omega
    have h3 : 2 * (L * ((L + 1) / 2)) = L * (L + 1) := by
      calc 2 * (L * ((L + 1) / 2)) = L * (2 * ((L + 1) / 2)) := by ring
        _ = L * (L + 1) := by rw [h2]
    rw [h3, hlen]
    ring
  · -- home and away appearance counts
    intro t ht
    obtain ⟨it, hit, hitEq⟩ := List.getElem_of_mem ht
    have htid : tidOf ts it = t.id := by rw [tidOf_lt ts hit, hitEq]
    have hitL : it ≤ L := by omega
    constructor
    · -- home count
      have hQ := rrEmitted_countP ts cid comp.season_id sd iv
        (fun pr => pr.1 == some t.id)
      rw [hLm] at hQ
      rw [hQ]
      have hstep : ∀ k ∈ List.range L,
          (rrRound L k).countP (fun p =>
            match (rrTeamsPadded ts).getD p.1 none, (rrTeamsPadded ts).getD p.2 none with
            | some home, some away =>
                (fun pr : Option Nat × Option Nat => pr.1 == some t.id)
                  (some home.id, some away.id)
            | _, _ => false)
          + (rrRound L k).countP (fun p =>
            match (rrTeamsPadded ts).getD p.1 none, (rrTeamsPadded ts).getD p.2 none with
            | some home, some away =>
                (fun pr : Option Nat × Option Nat => pr.1 == some t.id)
                  (some away.id, some home.id)
            | _, _ => false)
          = (rrRound L k).countP (fun p => p.1 == it || p.2 == it) := by
        intro k _
        rw [evenRound_countP_fst ts hpad hlen hLodd k
            (fun pr : Option Nat × Option Nat => pr.1 == some t.id) (fun p => p.1 == it)
            (fun i j hi hj => by
              simp only [beq_iff_eq, Option.some.injEq]
              constructor
              · intro h
                refine hinj i it hi hit ?_
                rw [← tidOf_lt ts hi, h, ← htid, tidOf_lt ts hit]
              · intro h
                rw [h, htid]),
          evenRound_countP_snd ts hpad hlen hLodd k
            (fun pr : Option Nat × Option Nat => pr.1 == some t.id) (fun p => p.2 == it)
            (fun i j hi hj => by
              simp only [beq_iff_eq, Option.some.injEq]
              constructor
              · intro h
                refine hinj j it hj hit ?_
                rw [← tidOf_lt ts hj, h, ← htid, tidOf_lt ts hit]
              · intro h
                rw [h, htid])]
        refine countP_add_disjoint _ _ _ ?_
        intro p hp h2
        obtain ⟨_, _, hpne⟩ := rrRound_mem_bounds hLodd hp
        simp only [beq_iff_eq] at h2
        omega
      rw [List.map_congr_left hstep, rrRounds_occ_count hLodd hitL]
    · -- away count
      have hQ := rrEmitted_countP ts cid comp.season_id sd iv
        (fun pr => pr.2 == some t.id)
      rw [hLm] at hQ
      rw [hQ]
      have hstep : ∀ k ∈ List.range L,
          (rrRound L k).countP (fun p =>
            match (rrTeamsPadded ts).getD p.1 none, (rrTeamsPadded ts).getD p.2 none with
            | some home, some away =>
                (fun pr : Option Nat × Option Nat => pr.2 == some t.id)
                  (some home.id, some away.id)
            | _, _ => false)
          + (rrRound L k).countP (fun p =>
            match (rrTeamsPadded ts).getD p.1 none, (rrTeamsPadded ts).getD p.2 none with
            | some home, some away =>
                (fun pr : Option Nat × Option Nat => pr.2 == some t.id)
                  (some away.id, some home.id)
            | _, _ => false)
          = (rrRound L k).countP (fun p => p.1 == it || p.2 == it) := by
        intro k _
        rw [evenRound_countP_fst ts hpad hlen hLodd k
            (fun pr : Option Nat × Option Nat => pr.2 == some t.id) (fun p => p.2 == it)
            (fun i j hi hj => by
              simp only [beq_iff_eq, Option.some.injEq]
              constructor
              · intro h
                refine hinj j it hj hit ?_
                rw [← tidOf_lt ts hj, h, ← htid, tidOf_lt ts hit]
              · intro h
                rw [h, htid]),
          evenRound_countP_snd ts hpad hlen hLodd k
            (fun pr : Option Nat × Option Nat => pr.2 == some t.id) (fun p => p.1 == it)
            (fun i j hi hj => by
              simp only [beq_iff_eq, Option.some.injEq]
              constructor
              · intro h
                refine hinj i it hi hit ?_
                rw [← tidOf_lt ts hi, h, ← htid, tidOf_lt ts hit]
              · intro h
                rw [h, htid])]
        refine ((countP_add_disjoint _ _ _ ?_).trans ?_)
        · intro p hp h2
          obtain ⟨_, _, hpne⟩ := rrRound_mem_bounds hLodd hp
          simp only [beq_iff_eq] at h2
          omega
        · refine List.countP_congr fun p hp => ?_
          simp only [Bool.or_eq_true, beq_iff_eq]
          exact or_comm
      rw [List.map_congr_left hstep, rrRounds_occ_count hLodd hitL]
  · -- each ordered pair exactly once
    intro t ht u hu hneid
    obtain ⟨it, hit, hitEq⟩ := List.getElem_of_mem ht
    obtain ⟨iu, hiu, hiuEq⟩ := List.getElem_of_mem hu
    have htid : tidOf ts it = t.id := by rw [tidOf_lt ts hit, hitEq]
    have hutid : tidOf ts iu = u.id := by rw [tidOf_lt ts hiu, hiuEq]
    have hne : it ≠ iu := by
      intro h
      apply hneid
      rw [← htid, ← hutid, h]
    have hQ := rrEmitted_countP ts cid comp.season_id sd iv
      (fun pr => pr.1 == some t.id && pr.2 == some u.id)
    rw [hLm] at hQ
    rw [hQ]
    have hstep : ∀ k ∈ List.range L,
        (rrRound L k).countP (fun p =>
          match (rrTeamsPadded ts).getD p.1 none, (rrTeamsPadded ts).getD p.2 none with
          | some home, some away =>
              (fun pr : Option Nat × Option Nat =>
                pr.1 == some t.id && pr.2 == some u.id) (some home.id, some away.id)
          | _, _ => false)
        + (rrRound L k).countP (fun p =>
          match (rrTeamsPadded ts).getD p.1 none, (rrTeamsPadded ts).getD p.2 none with
          | some home, some away =>
              (fun pr : Option Nat × Option Nat =>
                pr.1 == some t.id && pr.2 == some u.id) (some away.id, some home.id)
          | _, _ => false)
        = (rrRound L k).countP (fun p => s(p.1, p.2) == s(it, iu)) := by
      intro k _
      rw [evenRound_countP_fst ts hpad hlen hLodd k
          (fun pr : Option Nat × Option Nat => pr.1 == some t.id && pr.2 == some u.id)
          (fun p => p.1 == it && p.2 == iu)
          (fun i j hi hj => by
            simp only [Bool.and_eq_true, beq_iff_eq, Option.some.injEq]
            constructor
            · rintro ⟨h1, h2⟩
              refine ⟨hinj i it hi hit ?_, hinj j iu hj hiu ?_⟩
              · rw [← tidOf_lt ts hi, h1, ← htid, tidOf_lt ts hit]
              · rw [← tidOf_lt ts hj, h2, ← hutid, tidOf_lt ts hiu]
            · rintro ⟨h1, h2⟩
              rw [h1, h2, htid, hutid]
              exact ⟨rfl, rfl⟩),
        evenRound_countP_snd ts hpad hlen hLodd k
          (fun pr : Option Nat × Option Nat => pr.1 == some t.id && pr.2 == some u.id)
          (fun p => p.1 == iu && p.2 == it)
          (fun i j hi hj => by
            simp only [Bool.and_eq_true, beq_iff_eq, Option.some.injEq]
            constructor
            · rintro ⟨h1, h2⟩
              refine ⟨hinj i iu hi hiu ?_, hinj j it hj hit ?_⟩
              · rw [← tidOf_lt ts hi, h2, ← hutid, tidOf_lt ts hiu]
              · rw [← tidOf_lt ts hj, h1, ← htid, tidOf_lt ts hit]
            · rintro ⟨h1, h2⟩
              rw [h1, h2, htid, hutid]
              exact ⟨rfl, rfl⟩)]
      refine ((countP_add_disjoint _ _ _ ?_).trans ?_)
      · intro p hp h2
        simp only [Bool.and_eq_true, beq_iff_eq] at h2
        exact hne (by omega)
      · refine List.countP_congr fun p hp => ?_
        simp only [Bool.or_eq_true, Bool.and_eq_true, beq_iff_eq, Sym2.eq_iff]
    rw [List.map_congr_left hstep, rrRounds_sym_count hLodd (by omega) (by omega) hne]

/- ── Odd team count: bye pairings are dropped ── -/

theorem rrPass_length_odd (ts : List Team) (cid sid : Nat) (sd iv : Int) (off : Nat)
    (swap : Bool) (hodds : ts.length % 2 = 1) (hge : 3 ≤ ts.length) :
    (emitPass (rrTeamsPadded ts) cid sid sd iv off swap (rrSortedRounds ts)).length
      = ts.length * (ts.length - 1) / 2 := by
  classical
  rw [rrPass_length]
  have hpad : rrTeamsPadded ts = ts.map some ++ [none] := by
    rw [rrTeamsPadded, if_pos]
    omega
  have hmlen : (rrTeamsPadded ts).length = ts.length + 1 := by rw [hpad]; simp
  have hLm : (rrTeamsPadded ts).length - 1 = ts.length := by omega
  rw [hLm]
  set n := ts.length with hn
  have hLodd : n % 2 = 1 := hodds
  have hstep : ∀ k ∈ List.range n, (rrRound n k).countP (fun p =>
      match (rrTeamsPadded ts).getD p.1 none, (rrTeamsPadded ts).getD p.2 none with
      | some _, some _ => true
      | _, _ => false) = (n + 1) / 2 - 1 := by
    intro k _
    have hbye : (rrRound n k).countP (fun p : Nat × Nat => p.1 == n || p.2 == n) = 1 :=
      rrRound_occ hLodd k (le_refl n)
    have hlenr : (rrRound n k).length = 1 + ((n + 1) / 2 - 1) := by
      rw [rrRound]
      simp
      omega
    have hMP : ∀ p ∈ rrRound n k, ((fun p : Nat × Nat =>
        match (rrTeamsPadded ts).getD p.1 none, (rrTeamsPadded ts).getD p.2 none with
        | some _, some _ => true
        | _, _ => false) p = true ↔ (p.1 ≠ n ∧ p.2 ≠ n)) := by
      intro p hp
      obtain ⟨hb1, hb2, _⟩ := rrRound_mem_bounds hLodd hp
      show (match (rrTeamsPadded ts).getD p.1 none, (rrTeamsPadded ts).getD p.2 none with
          | some _, some _ => true
          | _, _ => false) = true ↔ (p.1 ≠ n ∧ p.2 ≠ n)
      by_cases hp1 : p.1 = n
      · have hg1 : (rrTeamsPadded ts).getD p.1 none = none := by
          rw [hp1, hpad]
          exact getD_pad_last ts
        rw [hg1]
        cases h2 : (rrTeamsPadded ts).getD p.2 none <;> simp [hp1]
      · have hg1 : (rrTeamsPadded ts).getD p.1 none = some ts[p.1] := by
          rw [hpad]
          exact getD_pad_lt ts (by omega)
        rw [hg1]
        by_cases hp2 : p.2 = n
        · have hg2 : (rrTeamsPadded ts).getD p.2 none = none := by
            rw [hp2, hpad]
            exact getD_pad_last ts
          rw [hg2]
          simp [hp1, hp2]
        · have hg2 : (rrTeamsPadded ts).getD p.2 none = some ts[p.2] := by
            rw [hpad]
            exact getD_pad_lt ts (by omega)
          rw [hg2]
          simp [hp1, hp2]
    have hdisj : (rrRound n k).countP (fun p : Nat × Nat =>
          match (rrTeamsPadded ts).getD p.1 none, (rrTeamsPadded ts).getD p.2 none with
          | some _, some _ => true
          | _, _ => false)
        + (rrRound n k).countP (fun p : Nat × Nat => p.1 == n || p.2 == n)
        = (rrRound n k).countP (fun x : Nat × Nat =>
            (match (rrTeamsPadded ts).getD x.1 none, (rrTeamsPadded ts).getD x.2 none with
            | some _, some _ => true
            | _, _ => false) || (x.1 == n || x.2 == n)) := by
      refine countP_add_disjoint _ _ _ ?_
      intro p hp h2
      obtain ⟨hmp, hbp⟩ := h2
      rw [hMP p hp] at hmp
      simp only [Bool.or_eq_true, beq_iff_eq] at hbp
      omega
    have hcov : (rrRound n k).countP (fun x : Nat × Nat =>
        (match (rrTeamsPadded ts).getD x.1 none, (rrTeamsPadded ts).getD x.2 none with
        | some _, some _ => true
        | _, _ => false) || (x.1 == n || x.2 == n)) = (rrRound n k).length := by
      rw [List.countP_eq_length]
      intro p hp
      by_cases hall : p.1 ≠ n ∧ p.2 ≠ n
      · have := (hMP p hp).mpr hall
        simp only [Bool.or_eq_true]
        exact Or.inl this
      · simp only [Bool.or_eq_true, beq_iff_eq]
        refine Or.inr ?_
        omega
    omega
  rw [List.map_congr_left hstep, List.map_const', List.sum_replicate, smul_eq_mul,
    List.length_range]
  have h1 : (n + 1) / 2 - 1 = (n - 1) / 2 := by omega
  rw [h1, ← Nat.mul_div_assoc n (by omega : (2 : Nat) ∣ (n - 1))]

/-- C7 (amended): for every odd team count `n ≥ 3`, `generate_round_robin`
emits `n·(n−1)` matches in total after dropping bye-involving pairings; the
emitted list is exactly the first emission pass (home/away as drawn) followed
by the second emission pass (home/away swapped, matchdays continued), and each
of those two passes contains `n·(n−1)/2` pairings. (The spec text claims
`(n−1)²` total, which contradicts its own per-pass count.) -/
theorem C7_round_robin_odd_counts {db : DB} {cid : Nat} {sd iv now : Int}
    {db' : DB} {ms : List Match} {comp : Competition}
    (hc : dbGetCompetition db cid = some comp)
    (hgen : generate_round_robin db cid sd iv now = (db', ms, none))
    (hodds : comp.teams.length % 2 = 1) :
    ms.length = comp.teams.length * (comp.teams.length - 1) ∧
    ms = emitPass (rrTeamsPadded comp.teams) cid comp.season_id sd iv 0 false
          (rrSortedRounds comp.teams)
        ++ emitPass (rrTeamsPadded comp.teams) cid comp.season_id sd iv
          (rrSortedRounds comp.teams).length true (rrSortedRounds comp.teams) ∧
    (emitPass (rrTeamsPadded comp.teams) cid comp.season_id sd iv 0 false
        (rrSortedRounds comp.teams)).length
      = comp.teams.length * (comp.teams.length - 1) / 2 ∧
    (emitPass (rrTeamsPadded comp.teams) cid comp.season_id sd iv
        (rrSortedRounds comp.teams).length true (rrSortedRounds comp.teams)).length
      = comp.teams.length * (comp.teams.length - 1) / 2 := by
  obtain ⟨hreg, hlen2, hms⟩ := generate_round_robin_success hc hgen
  have hge : 3 ≤ comp.teams.length := by omega
  subst hms
  have hA := rrPass_length_odd comp.teams cid comp.season_id sd iv 0 false hodds hge
  have hB := rrPass_length_odd comp.teams cid comp.season_id sd iv
    (rrSortedRounds comp.teams).length true hodds hge
  refine ⟨?_, by rw [rrEmitted], hA, hB⟩
  rw [rrEmitted, List.length_append, hA, hB]
  obtain ⟨c, hcEq⟩ : 2 ∣ comp.teams.length * (comp.teams.length - 1) :=
    Dvd.dvd.mul_left (by omega) _
  omega

def c7ts : List Team := [⟨1, 0, 0⟩, ⟨2, 0, 0⟩, ⟨3, 0, 0⟩]

def c7comp : Competition := ⟨1, CompetitionType.REGIONAL, 5, c7ts⟩

def c7db : DB := ⟨[c7comp], [], []⟩

/-- C7 counterexample: a 3-team regional competition yields 6 league matches,
not `(3−1)² = 4` as the claim states. -/
theorem C7_round_robin_odd_total_counterexample :
    (generate_round_robin c7db 1 0 7 0).2.2 = none ∧
    (generate_round_robin c7db 1 0 7 0).2.1.length = 6 ∧
    (generate_round_robin c7db 1 0 7 0).2.1.length ≠ (3 - 1) ^ 2 := by
  decide

/-- C7 witness: the amended theorem applied to the concrete 3-team league. -/
theorem C7_round_robin_odd_counts_witness :
    (dbGetCompetition c7db 1 = some c7comp ∧ c7comp.teams.length % 2 = 1) ∧
    ((generate_round_robin c7db 1 0 7 0).2.1.length
        = c7comp.teams.length * (c7comp.teams.length - 1) ∧
      (generate_round_robin c7db 1 0 7 0).2.1
        = emitPass (rrTeamsPadded c7comp.teams) 1 c7comp.season_id 0 7 0 false
            (rrSortedRounds c7comp.teams)
          ++ emitPass (rrTeamsPadded c7comp.teams) 1 c7comp.season_id 0 7
            (rrSortedRounds c7comp.teams).length true (rrSortedRounds c7comp.teams) ∧
      (emitPass (rrTeamsPadded c7comp.teams) 1 c7comp.season_id 0 7 0 false
          (rrSortedRounds c7comp.teams)).length
        = c7comp.teams.length * (c7comp.teams.length - 1) / 2 ∧
      (emitPass (rrTeamsPadded c7comp.teams) 1 c7comp.season_id 0 7
          (rrSortedRounds c7comp.teams).length true
          (rrSortedRounds c7comp.teams)).length
        = c7comp.teams.length * (c7comp.teams.length - 1) / 2) :=
  ⟨⟨by decide, by decide⟩,
    C7_round_robin_odd_counts
      (show dbGetCompetition c7db 1 = some c7comp by decide)
      (show generate_round_robin c7db 1 0 7 0
        = ((generate_round_robin c7db 1 0 7 0).1,
           (generate_round_robin c7db 1 0 7 0).2.1, none) by decide)
      (by decide)⟩

def c1ts : List Team := [⟨1, 0, 0⟩, ⟨2, 0, 0⟩, ⟨3, 1, 0⟩, ⟨4, 1, 0⟩]

def c1comp : Competition := ⟨1, CompetitionType.REGIONAL, 5, c1ts⟩

def c1db : DB := ⟨[c1comp], [], []⟩

/-- C1 witness: the round-robin counting theorem applied to a concrete
4-team regional competition. -/
theorem C1_round_robin_even_counts_witness :
    (dbGetCompetition c1db 1 = some c1comp ∧ c1comp.teams.length % 2 = 0 ∧
      (c1comp.teams.map Team.id).Nodup) ∧
    ((generate_round_robin c1db 1 0 7 0).2.1.length
        = c1comp.teams.length * (c1comp.teams.length - 1) ∧
      (∀ t ∈ c1comp.teams,
        (generate_round_robin c1db 1 0 7 0).2.1.countP
            (fun m => m.home_team_id == some t.id) = c1comp.teams.length - 1 ∧
        (generate_round_robin c1db 1 0 7 0).2.1.countP
            (fun m => m.away_team_id == some t.id) = c1comp.teams.length - 1) ∧
      (∀ t ∈ c1comp.teams, ∀ u ∈ c1comp.teams, t.id ≠ u.id →
        (generate_round_robin c1db 1 0 7 0).2.1.countP (fun m =>
          m.home_team_id == some t.id && m.away_team_id == some u.id) = 1)) :=
  ⟨⟨by decide, by decide, by decide⟩,
    C1_round_robin_even_counts
      (show dbGetCompetition c1db 1 = some c1comp by decide)
      (show generate_round_robin c1db 1 0 7 0
        = ((generate_round_robin c1db 1 0 7 0).1,
           (generate_round_robin c1db 1 0 7 0).2.1, none) by decide)
      (by decide) (by decide)⟩

/-- C8 (amended): `generate_round_robin` succeeds exactly when the competition
exists, its type is REGIONAL, it has at least 2 teams, and no LEAGUE match
exists for it; a COUNTY competition is rejected with the type error (county
leagues go through a separate service function, `generate_county_round_robin`);
on every error path the session is returned unchanged and no match or standing
is created. -/
theorem C8_round_robin_guards (db : DB) (cid : Nat) (sd iv now : Int) :
    ((generate_round_robin db cid sd iv now).2.2 = none ↔
      ∃ comp, dbGetCompetition db cid = some comp ∧
        comp.type = CompetitionType.REGIONAL ∧ 2 ≤ comp.teams.length ∧
        db.matches.find? (fun m =>
          m.competition_id == cid && m.stage == some MatchStage.LEAGUE) = none) ∧
    ((generate_round_robin db cid sd iv now).2.2 ≠ none →
      generate_round_robin db cid sd iv now
        = (db, [], (generate_round_robin db cid sd iv now).2.2)) ∧
    (∀ comp, dbGetCompetition db cid = some comp →
      comp.type = CompetitionType.COUNTY →
      generate_round_robin db cid sd iv now
        = (db, [], some "Round-robin is only for regional competitions")) := by
  rcases hcomp : dbGetCompetition db cid with _ | comp
  · have hEq : generate_round_robin db cid sd iv now
        = (db, [], some "Competition not found") := by
      rw [generate_round_robin, hcomp]
    refine ⟨?_, ?_, ?_⟩
    · rw [hEq]
      constructor
      · intro h
        exact absurd h (by simp)
      · rintro ⟨c, hcEq, -⟩
        cases hcEq
    · intro _
      rw [hEq]
    · intro c hcEq
      cases hcEq
  · by_cases h1 : comp.type ≠ CompetitionType.REGIONAL
    · have hEq : generate_round_robin db cid sd iv now
          = (db, [], some "Round-robin is only for regional competitions") := by
        rw [generate_round_robin, hcomp]
        exact if_pos h1
      refine ⟨?_, ?_, ?_⟩
      · rw [hEq]
        constructor
        · intro h
          exact absurd h (by simp)
        · rintro ⟨c, hcEq, hty, -⟩
          cases Option.some.inj hcEq
          exact (h1 hty).elim
      · intro _
        rw [hEq]
      · intro c hcEq _
        exact hEq
    · by_cases h2 : comp.teams.length < 2
      · have hEq : generate_round_robin db cid sd iv now
            = (db, [], some "Competition must have at least 2 teams") := by
          rw [generate_round_robin, hcomp]
          exact (if_neg h1).trans (if_pos h2)
        refine ⟨?_, ?_, ?_⟩
        · rw [hEq]
          constructor
          · intro h
            exact absurd h (by simp)
          · rintro ⟨c, hcEq, -, hl, -⟩
            cases Option.some.inj hcEq
            omega
        · intro _
          rw [hEq]
        · intro c hcEq hty
          cases Option.some.inj hcEq
          exact absurd (show comp.type ≠ CompetitionType.REGIONAL by
            rw [hty]; decide) h1
      · by_cases h3 : (db.matches.find? (fun m =>
            m.competition_id == cid && m.stage == some MatchStage.LEAGUE)).isSome
        · have hEq : generate_round_robin db cid sd iv now
              = (db, [], some "Fixtures already generated for this competition") := by
            rw [generate_round_robin, hcomp]
            exact (if_neg h1).trans ((if_neg h2).trans (if_pos h3))
          refine ⟨?_, ?_, ?_⟩
          · rw [hEq]
            constructor
            · intro h
              exact absurd h (by simp)
            · rintro ⟨c, hcEq, -, -, hf⟩
              cases Option.some.inj hcEq
              rw [hf] at h3
              cases h3
          · intro _
            rw [hEq]
          · intro c hcEq hty
            cases Option.some.inj hcEq
            exact absurd (show comp.type ≠ CompetitionType.REGIONAL by
              rw [hty]; decide) h1
        · have hnone : (generate_round_robin db cid sd iv now).2.2 = none := by
            rw [generate_round_robin, hcomp]
            exact congrArg (fun x : DB × List Match × Option String => x.2.2)
              ((if_neg h1).trans ((if_neg h2).trans (if_neg h3)))
          refine ⟨?_, ?_, ?_⟩
          · rw [hnone]
            refine ⟨fun _ => ⟨comp, rfl, not_not.mp h1, by omega, ?_⟩, fun _ => rfl⟩
            cases hf : db.matches.find? (fun m =>
              m.competition_id == cid && m.stage == some MatchStage.LEAGUE)
            · rfl
            · rw [hf] at h3
              exact absurd rfl h3
          · intro h
            exact absurd hnone h
          · intro c hcEq hty
            cases Option.some.inj hcEq
            exact absurd (show comp.type ≠ CompetitionType.REGIONAL by
              rw [hty]; decide) h1

def c8ts : List Team := [⟨1, 0, 0⟩, ⟨2, 0, 0⟩]

def c8comp : Competition := ⟨2, CompetitionType.COUNTY, 5, c8ts⟩

def c8db : DB := ⟨[c8comp], [], []⟩

/-- C8 counterexample: a COUNTY competition with 2 teams and no existing
fixtures is rejected by `generate_round_robin` (the claim says it succeeds). -/
theorem C8_round_robin_county_counterexample :
    c8comp.type = CompetitionType.COUNTY ∧ 2 ≤ c8comp.teams.length ∧
    c8db.matches = [] ∧
    (generate_round_robin c8db 2 0 7 0).2.2
      = some "Round-robin is only for regional competitions" := by
  decide

/-- C8 witness: the guards theorem applied to the concrete COUNTY competition. -/
theorem C8_round_robin_guards_witness :
    dbGetCompetition c8db 2 = some c8comp ∧ c8comp.type = CompetitionType.COUNTY ∧
    generate_round_robin c8db 2 0 7 0
      = (c8db, [], some "Round-robin is only for regional competitions") :=
  ⟨by decide, by decide,
    (C8_round_robin_guards c8db 2 0 7 0).2.2 c8comp (by decide) (by decide)⟩

/- ── Bracket progression (`advance_bracket_winner`, scheduler_service.py
lines 513-641) ── -/

/-- Mutating the first row matching `p` in the session's match list: the
SQLAlchemy identity-map analogue of assigning to a fetched row object. -/
def updateFirst (p : Match → Bool) (f : Match → Match) : List Match → List Match
  | [] => []
  | m :: ms => if p m then f m :: ms else m :: updateFirst p f ms

/-- `_fill_parent_slot` (lines 601-641). `winner_id` is carried as the raw
(nullable) column value the Python code assigns. -/
def fill_parent_slot (ms : List Match) (competition_id parent_bp : Nat)
    (winner_id : Option Nat) (is_home : Bool) : List Match :=
  let q : Match → Bool := fun m =>
    m.competition_id == competition_id && m.bracket_position == some parent_bp
  let parent_matches := ms.filter q
  if parent_matches.length = 0 then ms
  else if parent_matches.all (fun m => m.leg == none) || parent_matches.length == 1 then
    updateFirst q (fun m =>
      if is_home then { m with home_team_id := winner_id }
      else { m with away_team_id := winner_id }) ms
  else
    updateFirst (fun m => q m && m.leg == some 2) (fun m =>
        if is_home then { m with away_team_id := winner_id }
        else { m with home_team_id := winner_id })
      (updateFirst (fun m => q m && m.leg == some 1) (fun m =>
          if is_home then { m with home_team_id := winner_id }
          else { m with away_team_id := winner_id }) ms)

/-- `_advance_single_leg` (lines 531-548). Python's `if match.penalty_winner_id:`
is falsy both for NULL and for id 0. -/
def advance_single_leg (ms : List Match) (m : Match) : List Match :=
  match m.home_score, m.away_score with
  | some hs, some ascore =>
    let winner_id : Option (Option Nat) :=
      if hs = ascore then
        if m.penalty_winner_id ≠ none ∧ m.penalty_winner_id ≠ some 0 then
          some m.penalty_winner_id
        else none
      else some (if hs > ascore then m.home_team_id else m.away_team_id)
    match winner_id with
    | none => ms
    | some w =>
        fill_parent_slot ms m.competition_id (m.bracket_position.getD 0 / 2) w
          (m.bracket_position.getD 0 % 2 == 0)
  | _, _ => ms

/-- `_advance_two_legged` (lines 551-598). -/
def advance_two_legged (ms : List Match) (m : Match) : List Match :=
  let legs := ms.filter (fun x =>
    x.competition_id == m.competition_id && x.bracket_position == m.bracket_position)
  if legs.length < 2 then ms
  else
    match legs.find? (fun x => x.leg == some 1), legs.find? (fun x => x.leg == some 2) with
    | some leg1, some leg2 =>
      if leg1.status ≠ MatchStatus.CONFIRMED ∨ leg2.status ≠ MatchStatus.CONFIRMED then ms
      else
        let team_a_id := leg1.home_team_id
        let team_b_id := leg1.away_team_id
        let team_a_goals := leg1.home_score.getD 0 + leg2.away_score.getD 0
        let team_b_goals := leg1.away_score.getD 0 + leg2.home_score.getD 0
        let winner_id : Option (Option Nat) :=
          if team_a_goals > team_b_goals then some team_a_id
          else if team_b_goals > team_a_goals then some team_b_id
          else
            let team_a_away := leg2.away_score.getD 0
            let team_b_away := leg1.away_score.getD 0
            if team_a_away > team_b_away then some team_a_id
            else if team_b_away > team_a_away then some team_b_id
            else none
        match winner_id with
        | none => ms
        | some w =>
            fill_parent_slot ms m.competition_id (m.bracket_position.getD 0 / 2) w
              (m.bracket_position.getD 0 % 2 == 0)
    | _, _ => ms

/-- `advance_bracket_winner` (lines 513-528). -/
def advance_bracket_winner (ms : List Match) (m : Match) : List Match :=
  match m.bracket_position with
  | none => ms
  | some bp =>
    if bp = 1 then ms
    else if m.leg ≠ none then advance_two_legged ms m
    else advance_single_leg ms m

/-- C2: for every two-legged bracket tie, `advance_bracket_winner` leaves the
session untouched while either leg is not CONFIRMED; once both legs are
CONFIRMED it fills the parent slot(s) with the strictly higher aggregate
scorer, breaks aggregate ties by away goals (team A's away goals = leg 2 away
score, team B's away goals = leg 1 away score), and on away-goal equality it
leaves the session unchanged. -/
theorem C2_two_legged_resolution {ms : List Match} {m leg1 leg2 : Match} {bp : Nat}
    (hbp : m.bracket_position = some bp) (hbp1 : bp ≠ 1) (hleg : m.leg ≠ none)
    (hlen : 2 ≤ (ms.filter (fun x =>
      x.competition_id == m.competition_id &&
        x.bracket_position == m.bracket_position)).length)
    (hfind1 : (ms.filter (fun x =>
      x.competition_id == m.competition_id &&
        x.bracket_position == m.bracket_position)).find?
        (fun x => x.leg == some 1) = some leg1)
    (hfind2 : (ms.filter (fun x =>
      x.competition_id == m.competition_id &&
        x.bracket_position == m.bracket_position)).find?
        (fun x => x.leg == some 2) = some leg2) :
    ((leg1.status ≠ MatchStatus.CONFIRMED ∨ leg2.status ≠ MatchStatus.CONFIRMED) →
      advance_bracket_winner ms m = ms) ∧
    (leg1.status = MatchStatus.CONFIRMED → leg2.status = MatchStatus.CONFIRMED →
      (leg1.home_score.getD 0 + leg2.away_score.getD 0 >
          leg1.away_score.getD 0 + leg2.home_score.getD 0 →
        advance_bracket_winner ms m
          = fill_parent_slot ms m.competition_id (bp / 2) leg1.home_team_id
              (bp % 2 == 0)) ∧
      (leg1.away_score.getD 0 + leg2.home_score.getD 0 >
          leg1.home_score.getD 0 + leg2.away_score.getD 0 →
        advance_bracket_winner ms m
          = fill_parent_slot ms m.competition_id (bp / 2) leg1.away_team_id
              (bp % 2 == 0)) ∧
      (leg1.home_score.getD 0 + leg2.away_score.getD 0 =
          leg1.away_score.getD 0 + leg2.home_score.getD 0 →
        (leg2.away_score.getD 0 > leg1.away_score.getD 0 →
          advance_bracket_winner ms m
            = fill_parent_slot ms m.competition_id (bp / 2) leg1.home_team_id
                (bp % 2 == 0)) ∧
        (leg1.away_score.getD 0 > leg2.away_score.getD 0 →
          advance_bracket_winner ms m
            = fill_parent_slot ms m.competition_id (bp / 2) leg1.away_team_id
                (bp % 2 == 0)) ∧
        (leg2.away_score.getD 0 = leg1.away_score.getD 0 →
          advance_bracket_winner ms m = ms))) := by
  have hstep : advance_bracket_winner ms m = advance_two_legged ms m := by
    rw [advance_bracket_winner, hbp]
    exact (if_neg hbp1).trans (if_pos hleg)
  have hnotlt : ¬ ((ms.filter (fun x =>
      x.competition_id == m.competition_id &&
        x.bracket_position == m.bracket_position)).length < 2) := by omega
  constructor
  · intro hnc
    rw [hstep]
    simp only [advance_two_legged]
    rw [if_neg hnotlt, hfind1, hfind2]
    simp only []
    rw [if_pos hnc]
  · intro hc1 hc2
    have hncfalse : ¬(leg1.status ≠ MatchStatus.CONFIRMED ∨
        leg2.status ≠ MatchStatus.CONFIRMED) := by
      simp [hc1, hc2]
    refine ⟨?_, ?_, ?_⟩
    · intro hAB
      rw [hstep]
      simp only [advance_two_legged]
      rw [if_neg hnotlt, hfind1, hfind2]
      simp only []
      rw [if_neg hncfalse, if_pos hAB]
      simp only []
      rw [hbp]
      rfl
    · intro hBA
      rw [hstep]
      simp only [advance_two_legged]
      rw [if_neg hnotlt, hfind1, hfind2]
      simp only []
      rw [if_neg hncfalse, if_neg (by omega), if_pos hBA]
      simp only []
      rw [hbp]
      rfl
    · intro hEq
      refine ⟨?_, ?_, ?_⟩
      · intro haw
        rw [hstep]
        simp only [advance_two_legged]
        rw [if_neg hnotlt, hfind1, hfind2]
        simp only []
        rw [if_neg hncfalse, if_neg (by omega), if_neg (by omega), if_pos haw]
        simp only []
        rw [hbp]
        rfl
      · intro hbw
        rw [hstep]
        simp only [advance_two_legged]
        rw [if_neg hnotlt, hfind1, hfind2]
        simp only []
        rw [if_neg hncfalse, if_neg (by omega), if_neg (by omega),
          if_neg (by omega), if_pos hbw]
        simp only []
        rw [hbp]
        rfl
      · intro hawEq
        rw [hstep]
        simp only [advance_two_legged]
        rw [if_neg hnotlt, hfind1, hfind2]
        simp only []
        rw [if_neg hncfalse, if_neg (by omega), if_neg (by omega),
          if_neg (by omega), if_neg (by omega)]

def c2leg1 : Match :=
  { competition_id := 1, season_id := 1, home_team_id := some 1,
    away_team_id := some 2, home_score := some 1, away_score := some 1,
    status := MatchStatus.CONFIRMED, stage := some MatchStage.QUARTER_FINAL,
    leg := some 1, round_number := some 1, bracket_position := some 2 }

def c2leg2 : Match :=
  { competition_id := 1, season_id := 1, home_team_id := some 2,
    away_team_id := some 1, home_score := some 2, away_score := some 2,
    status := MatchStatus.CONFIRMED, stage := some MatchStage.QUARTER_FINAL,
    leg := some 2, round_number := some 1, bracket_position := some 2 }

def c2parent : Match :=
  { competition_id := 1, season_id := 1,
    stage := some MatchStage.SEMI_FINAL, round_number := some 2,
    bracket_position := some 1 }

def c2ms : List Match := [c2parent, c2leg1, c2leg2]

theorem C2_two_legged_resolution_witness :
    advance_bracket_winner c2ms c2leg2 = fill_parent_slot c2ms 1 1 (some 1) true := by
  have h := @C2_two_legged_resolution c2ms c2leg2 c2leg1 c2leg2 2
    (by rfl) (by decide) (by decide) (by decide) (by rfl) (by rfl)
  exact ((h.2 rfl rfl).2.2 (by decide)).1 (by decide)

/- ── Standings sorting (`sort_standings`, standings.py lines 13-74) ── -/

/-- The match filter shared by `sort_standings` (lines 29-35) and
`recalculate_standings` (lines 86-92): CONFIRMED matches of the
competition/season whose stage is LEAGUE, GROUP or NULL. -/
def standingsMatchFilter (competition_id season_id : Nat) (m : Match) : Bool :=
  m.competition_id == competition_id && m.season_id == season_id &&
    m.status == MatchStatus.CONFIRMED &&
    (m.stage == some MatchStage.LEAGUE || m.stage == some MatchStage.GROUP ||
      m.stage == none)

/-- Python tuple comparison on the 4-component sort key (lexicographic `<`). -/
def key4Lt : Int × Int × Int × Int → Int × Int × Int × Int → Bool
  | (a1, a2, a3, a4), (b1, b2, b3, b4) =>
    a1 < b1 || (a1 == b1 && (a2 < b2 || (a2 == b2 &&
      (a3 < b3 || (a3 == b3 && a4 < b4)))))

/-- Stable insertion for descending sort by a 4-tuple key (`tied.sort(key=...,
reverse=True)`, lines 63-71): `x` goes after strictly larger keys and before
equal ones, as Python's stable reverse sort places an earlier element. -/
def insertDescBy4 (key : α → Int × Int × Int × Int) (x : α) : List α → List α
  | [] => [x]
  | y :: ys => if key4Lt (key x) (key y) then y :: insertDescBy4 key x ys
               else x :: y :: ys

def sortDescBy4 (key : α → Int × Int × Int × Int) : List α → List α
  | [] => []
  | x :: xs => insertDescBy4 key x (sortDescBy4 key xs)

/-- `itertools.groupby` (line 41) over a list: maximal runs of consecutive
elements with equal key. -/
def groupRuns (key : α → Nat) : List α → List (List α)
  | [] => []
  | x :: xs =>
    match groupRuns key xs with
    | [] => [[x]]
    | g :: gs =>
      match g with
      | [] => [x] :: g :: gs
      | y :: _ => if key x == key y then (x :: g) :: gs else [x] :: g :: gs

/-- Head-to-head points of team `tid` accumulated over `ms` restricted to
matches whose two teams are both in `tied_ids` (lines 51-59). -/
def h2h_pts (ms : List Match) (tied_ids : List Nat) (tid : Nat) : Nat :=
  ms.foldl (fun acc m =>
    match m.home_team_id, m.away_team_id with
    | some h, some a =>
      if tied_ids.contains h && tied_ids.contains a then
        let hs := m.home_score.getD 0
        let aw := m.away_score.getD 0
        acc + (if hs > aw then (if h == tid then 3 else 0)
               else if hs < aw then (if a == tid then 3 else 0)
               else (if h == tid then 1 else 0) + (if a == tid then 1 else 0))
      else acc
    | _, _ => acc) 0

/-- Head-to-head goal difference of team `tid` among `tied_ids` (lines 60-61). -/
def h2h_gd (ms : List Match) (tied_ids : List Nat) (tid : Nat) : Int :=
  ms.foldl (fun acc m =>
    match m.home_team_id, m.away_team_id with
    | some h, some a =>
      if tied_ids.contains h && tied_ids.contains a then
        let hs : Int := m.home_score.getD 0
        let aw : Int := m.away_score.getD 0
        acc + (if h == tid then hs - aw else 0) + (if a == tid then aw - hs else 0)
      else acc
    | _, _ => acc) 0

/-- The 4-component tiebreak key of lines 63-71: (h2h points, h2h goal
difference, overall goal difference, overall goals for). -/
def h2hKey (confirmed : List Match) (tied_ids : List Nat) (s : Standing) :
    Int × Int × Int × Int :=
  ((h2h_pts confirmed tied_ids s.team_id : Int),
    h2h_gd confirmed tied_ids s.team_id, s.goal_difference, (s.goals_for : Int))

/-- The body of the `groupby` loop (lines 41-72): a tied group of size 1 is
kept; otherwise it is stably re-sorted descending by the h2h key computed
among the group's own team ids. -/
def tieBreakGroup (confirmed : List Match) (tied : List Standing) : List Standing :=
  if tied.length == 1 then tied
  else
    let tied_ids := tied.map (fun s => s.team_id)
    sortDescBy4 (h2hKey confirmed tied_ids) tied

/-- `sort_standings(standings, competition_id, season_id)` (lines 13-74), with
the match table passed explicitly. -/
def sort_standings (standings : List Standing) (ms : List Match)
    (competition_id season_id : Nat) : List Standing :=
  if standings.length ≤ 1 then standings
  else
    let confirmed := ms.filter (standingsMatchFilter competition_id season_id)
    let by_points := sortDescBy (fun s => s.points) standings
    ((groupRuns (fun s => s.points) by_points).map
      (tieBreakGroup confirmed)).flatten

def mkC3Match (h a hs aw : Nat) : Match :=
  { competition_id := 1, season_id := 1, home_team_id := some h,
    away_team_id := some a, home_score := some hs, away_score := some aw,
    status := MatchStatus.CONFIRMED, stage := some MatchStage.LEAGUE }

def c3matches : List Match :=
  [ mkC3Match 1 2 1 0, mkC3Match 2 1 0 1,
    mkC3Match 1 3 0 1, mkC3Match 3 1 1 0,
    mkC3Match 1 4 1 1, mkC3Match 4 1 1 1,
    mkC3Match 2 3 1 1, mkC3Match 3 2 1 1,
    mkC3Match 2 4 1 0, mkC3Match 4 2 0 1,
    mkC3Match 3 4 0 0, mkC3Match 4 3 0 0 ]

def c3A : Standing :=
  { team_id := 1, competition_id := 1, season_id := 1, played := 6, won := 2,
    drawn := 2, lost := 2, goals_for := 4, goals_against := 4,
    goal_difference := 0, points := 8 }

def c3B : Standing :=
  { team_id := 2, competition_id := 1, season_id := 1, played := 6, won := 2,
    drawn := 2, lost := 2, goals_for := 4, goals_against := 4,
    goal_difference := 0, points := 8 }

def c3C : Standing :=
  { team_id := 3, competition_id := 1, season_id := 1, played := 6, won := 2,
    drawn := 4, lost := 0, goals_for := 4, goals_against := 2,
    goal_difference := 2, points := 10 }

def c3D : Standing :=
  { team_id := 4, competition_id := 1, season_id := 1, played := 6, won := 0,
    drawn := 4, lost := 2, goals_for := 2, goals_against := 4,
    goal_difference := -2, points := 4 }

theorem insertDescBy4_perm (key : α → Int × Int × Int × Int) (x : α) (l : List α) :
    (insertDescBy4 key x l).Perm (x :: l) := by
  induction l with
  | nil => exact List.Perm.refl _
  | cons y ys ih =>
    rw [insertDescBy4]
    split
    · exact ((ih.cons y).trans (List.Perm.swap x y ys))
    · exact List.Perm.refl _

theorem sortDescBy4_perm (key : α → Int × Int × Int × Int) (l : List α) :
    (sortDescBy4 key l).Perm l := by
  induction l with
  | nil => exact List.Perm.refl _
  | cons x xs ih => exact (insertDescBy4_perm key x (sortDescBy4 key xs)).trans (ih.cons x)

theorem insertDescBy_sorted (key : α → Nat) (x : α) (l : List α)
    (h : l.Pairwise (fun a b => key b ≤ key a)) :
    (insertDescBy key x l).Pairwise (fun a b => key b ≤ key a) := by
  induction l with
  | nil => simp [insertDescBy]
  | cons y ys ih =>
    rw [List.pairwise_cons] at h
    rw [insertDescBy]
    split
    · rename_i hlt
      refine List.pairwise_cons.mpr ⟨fun b hb => ?_, ih h.2⟩
      rcases List.mem_cons.mp ((insertDescBy_perm key x ys).mem_iff.mp hb) with rfl | hby
      · omega
      · exact h.1 b hby
    · rename_i hge
      refine List.pairwise_cons.mpr ⟨fun b hb => ?_, List.pairwise_cons.mpr h⟩
      rcases List.mem_cons.mp hb with rfl | hby
      · omega
      · have := h.1 b hby
        omega

theorem sortDescBy_sorted (key : α → Nat) (l : List α) :
    (sortDescBy key l).Pairwise (fun a b => key b ≤ key a) := by
  induction l with
  | nil => exact List.Pairwise.nil
  | cons x xs ih => exact insertDescBy_sorted key x _ ih

theorem key4Lt_iff (a b : Int × Int × Int × Int) :
    key4Lt a b = true ↔ (a.1 < b.1 ∨ (a.1 = b.1 ∧ (a.2.1 < b.2.1 ∨ (a.2.1 = b.2.1 ∧
      (a.2.2.1 < b.2.2.1 ∨ (a.2.2.1 = b.2.2.1 ∧ a.2.2.2 < b.2.2.2)))))) := by
  obtain ⟨a1, a2, a3, a4⟩ := a
  obtain ⟨b1, b2, b3, b4⟩ := b
  simp [key4Lt]

theorem key4Lt_asymm {a b : Int × Int × Int × Int} (h : key4Lt a b = true) :
    key4Lt b a = false := by
  rw [key4Lt_iff] at h
  rw [Bool.eq_false_iff, Ne, key4Lt_iff]
  omega

theorem key4Ge_trans {a b c : Int × Int × Int × Int} (hab : key4Lt a b = false)
    (hbc : key4Lt b c = false) : key4Lt a c = false := by
  rw [Bool.eq_false_iff, Ne, key4Lt_iff] at hab hbc ⊢
  omega

theorem insertDescBy4_sorted (key : α → Int × Int × Int × Int) (x : α) (l : List α)
    (h : l.Pairwise (fun a b => key4Lt (key a) (key b) = false)) :
    (insertDescBy4 key x l).Pairwise (fun a b => key4Lt (key a) (key b) = false) := by
  induction l with
  | nil => simp [insertDescBy4]
  | cons y ys ih =>
    rw [List.pairwise_cons] at h
    rw [insertDescBy4]
    split
    · rename_i hlt
      refine List.pairwise_cons.mpr ⟨fun b hb => ?_, ih h.2⟩
      rcases List.mem_cons.mp ((insertDescBy4_perm key x ys).mem_iff.mp hb) with rfl | hby
      · exact key4Lt_asymm hlt
      · exact h.1 b hby
    · rename_i hge
      have hxy : key4Lt (key x) (key y) = false := Bool.eq_false_iff.mpr hge
      refine List.pairwise_cons.mpr ⟨fun b hb => ?_, List.pairwise_cons.mpr h⟩
      rcases List.mem_cons.mp hb with rfl | hby
      · exact hxy
      · exact key4Ge_trans hxy (h.1 b hby)

theorem sortDescBy4_sorted (key : α → Int × Int × Int × Int) (l : List α) :
    (sortDescBy4 key l).Pairwise (fun a b => key4Lt (key a) (key b) = false) := by
  induction l with
  | nil => exact List.Pairwise.nil
  | cons x xs ih => exact insertDescBy4_sorted key x _ ih

theorem groupRuns_flatten (key : α → Nat) (l : List α) :
    (groupRuns key l).flatten = l := by
  induction l with
  | nil => rfl
  | cons x xs ih =>
    rw [groupRuns]
    rcases hg : groupRuns key xs with _ | ⟨g, gs⟩
    · rw [hg] at ih
      simp only [List.flatten_nil] at ih
      simp [← ih]
    · rw [hg] at ih
      rcases g with _ | ⟨y, g'⟩
      · simp only [List.flatten_cons, List.nil_append] at ih
        simp only []
        simp [List.flatten_cons, ih]
      · simp only [List.flatten_cons] at ih
        simp only []
        split
        · simp [List.flatten_cons, ih]
        · simp [List.flatten_cons, ih]

theorem groupRuns_key_const (key : α → Nat) (l : List α) :
    ∀ g ∈ groupRuns key l, ∀ a ∈ g, ∀ b ∈ g, key a = key b := by
  induction l with
  | nil =>
    intro g hg
    simp [groupRuns] at hg
  | cons x xs ih =>
    intro g hg a ha b hb
    rw [groupRuns] at hg
    rcases hgx : groupRuns key xs with _ | ⟨g0, gs⟩
    · rw [hgx] at hg
      simp only [List.mem_singleton] at hg
      subst hg
      simp only [List.mem_singleton] at ha hb
      rw [ha, hb]
    · rw [hgx] at hg
      rcases g0 with _ | ⟨y, g0'⟩
      · simp only [] at hg
        simp only [List.mem_cons] at hg
        rcases hg with rfl | rfl | hgs
        · simp only [List.mem_singleton] at ha hb
          rw [ha, hb]
        · simp at ha
        · exact ih g (by rw [hgx]; exact List.mem_cons_of_mem _ hgs) a ha b hb
      · simp only [] at hg
        split at hg
        · rename_i hk
          have hkey : key x = key y := by
            simpa using hk
          have hrun : ∀ c ∈ y :: g0', key c = key y :=
            fun c hc => ih (y :: g0') (by rw [hgx]; exact List.mem_cons_self _ _)
              c hc y (List.mem_cons_self _ _)
          simp only [List.mem_cons] at hg
          rcases hg with rfl | hgs
          · have hay : key a = key y := by
              rcases List.mem_cons.mp ha with rfl | ha'
              · exact hkey
              · exact hrun a ha'
            have hby : key b = key y := by
              rcases List.mem_cons.mp hb with rfl | hb'
              · exact hkey
              · exact hrun b hb'
            rw [hay, hby]
          · exact ih g (by rw [hgx]; exact List.mem_cons_of_mem _ hgs) a ha b hb
        · simp only [List.mem_cons] at hg
          rcases hg with rfl | rfl | hgs
          · simp only [List.mem_singleton] at ha hb
            rw [ha, hb]
          · exact ih (y :: g0') (by rw [hgx]; exact List.mem_cons_self _ _) a ha b hb
          · exact ih g (by rw [hgx]; exact List.mem_cons_of_mem _ hgs) a ha b hb

theorem flatten_map_perm (f : List α → List α) (L : List (List α))
    (h : ∀ g ∈ L, (f g).Perm g) :
    (L.map f).flatten.Perm L.flatten := by
  induction L with
  | nil => exact List.Perm.refl _
  | cons g gs ih =>
    simp only [List.map_cons, List.flatten_cons]
    exact (h g (List.mem_cons_self g gs)).append
      (ih fun g' hg' => h g' (List.mem_cons_of_mem _ hg'))

theorem tieBreakGroup_perm (confirmed : List Match) (g : List Standing) :
    (tieBreakGroup confirmed g).Perm g := by
  rw [tieBreakGroup]
  split
  · exact List.Perm.refl _
  · exact sortDescBy4_perm _ _

theorem tieBreakGroup_map_points (confirmed : List Match) (g : List Standing)
    (hconst : ∀ a ∈ g, ∀ b ∈ g, a.points = b.points) :
    (tieBreakGroup confirmed g).map (fun s => s.points)
      = g.map (fun s => s.points) := by
  rcases g with _ | ⟨s0, g'⟩
  · rfl
  · have hlen : (tieBreakGroup confirmed (s0 :: g')).length = (s0 :: g').length :=
      (tieBreakGroup_perm _ _).length_eq
    have h1 : (tieBreakGroup confirmed (s0 :: g')).map (fun s => s.points)
        = List.replicate (s0 :: g').length s0.points := by
      rw [List.eq_replicate_iff]
      constructor
      · rw [List.length_map, hlen]
      · intro p hp
        obtain ⟨s, hs, rfl⟩ := List.mem_map.mp hp
        exact hconst s ((tieBreakGroup_perm _ _).mem_iff.mp hs) s0
          (List.mem_cons_self _ _)
    have h2 : (s0 :: g').map (fun s => s.points)
        = List.replicate (s0 :: g').length s0.points := by
      rw [List.eq_replicate_iff]
      constructor
      · rw [List.length_map]
      · intro p hp
        obtain ⟨s, hs, rfl⟩ := List.mem_map.mp hp
        exact hconst s hs s0 (List.mem_cons_self _ _)
    rw [h1, h2]

/-- C3: `sort_standings` returns a permutation of its input ordered by overall
points descending; each maximal group of rows tied on overall points is stably
re-sorted descending by the lexicographic key (head-to-head points, head-to-head
goal difference, overall goal difference, overall goals for), where the
head-to-head values are accumulated only from CONFIRMED LEAGUE/GROUP/NULL-stage
matches between teams of the tied group; and on the 4-team scenario of
Section 8 test 3 the returned order is C, A, B, D. -/
theorem C3_sort_standings_order (standings : List Standing) (ms : List Match)
    (cid sid : Nat) :
    (sort_standings standings ms cid sid).Perm standings ∧
    (sort_standings standings ms cid sid).Pairwise
      (fun a b => b.points ≤ a.points) ∧
    (∀ g ∈ groupRuns (fun s => s.points)
        (sortDescBy (fun s => s.points) standings),
      (tieBreakGroup (ms.filter (standingsMatchFilter cid sid)) g).Pairwise
        (fun a b =>
          key4Lt
            (h2hKey (ms.filter (standingsMatchFilter cid sid))
              (g.map (fun s => s.team_id)) a)
            (h2hKey (ms.filter (standingsMatchFilter cid sid))
              (g.map (fun s => s.team_id)) b) = false)) ∧
    sort_standings [c3A, c3B, c3C, c3D] c3matches 1 1 = [c3C, c3A, c3B, c3D] := by
  refine ⟨?_, ?_, ?_, by decide⟩
  · rw [sort_standings]
    split
    · exact List.Perm.refl _
    · simp only []
      refine (flatten_map_perm _ _ (fun g _ => tieBreakGroup_perm _ g)).trans ?_
      rw [groupRuns_flatten]
      exact sortDescBy_perm _ _
  · rw [sort_standings]
    split
    · rename_i hle
      rcases standings with _ | ⟨a, _ | ⟨b, t⟩⟩
      · exact List.Pairwise.nil
      · simp
      · simp at hle
    · simp only []
      have hmap : (((groupRuns (fun s => s.points)
            (sortDescBy (fun s => s.points) standings)).map
            (tieBreakGroup (ms.filter (standingsMatchFilter cid sid)))).flatten).map
            (fun s => s.points)
          = (sortDescBy (fun s => s.points) standings).map (fun s => s.points) := by
        conv_rhs => rw [← groupRuns_flatten (fun s => s.points)
          (sortDescBy (fun s => s.points) standings)]
        rw [List.map_flatten, List.map_flatten, List.map_map]
        refine congrArg List.flatten (List.map_congr_left fun g hg => ?_)
        simp only [Function.comp_apply]
        exact tieBreakGroup_map_points _ g
          (fun a ha b hb => groupRuns_key_const (fun s => s.points) _ g hg a ha b hb)
      have hsorted : ((sortDescBy (fun s => s.points) standings).map
          (fun s => s.points)).Pairwise (fun p q => q ≤ p) :=
        List.pairwise_map.mpr (sortDescBy_sorted (fun s => s.points) standings)
      rw [← hmap] at hsorted
      exact List.pairwise_map.mp hsorted
  · intro g hg
    rw [tieBreakGroup]
    split
    · rename_i h1
      rcases g with _ | ⟨a, _ | ⟨b, t⟩⟩
      · exact List.Pairwise.nil
      · simp
      · simp at h1
    · exact sortDescBy4_sorted _ _

/- ── Champions League group draw (`generate_cl_groups`, lines 132-228) ── -/

/-- The group contents built by the assignment loop of lines 175-178: iterating
`i` over the shuffled `region_ids` and `j` over each region's shuffled team
list, a team is appended to group `group_idx = (i + j * 2) % 7`.  The two
shuffles enter as the parameters `region_ids` (key order) and `region_map`
(per-region team order): the claim quantifies over every outcome of the
random permutations. -/
def cl_group_assign (region_ids : List Nat) (region_map : Nat → List Team)
    (g : Nat) : List Team :=
  (region_ids.enum.map (fun p =>
    (region_map p.2).enum.filterMap (fun q =>
      if (p.1 + q.1 * 2) % 7 = g then some q.2 else none))).flatten

theorem length_filterMap_enum (P : Nat → Prop) [DecidablePred P] (l : List β) :
    (l.enum.filterMap (fun q => if P q.1 then some q.2 else none)).length
      = (List.range l.length).countP (fun j => decide (P j)) := by
  rw [length_filterMap_eq_countP]
  have h1 : l.enum.countP
        (fun q => ((if P q.1 then some q.2 else none) : Option β).isSome)
      = l.enum.countP (fun q => decide (P q.1)) := by
    refine List.countP_congr fun q _ => ?_
    by_cases h : P q.1 <;> simp [h]
  rw [h1]
  have h2 : l.enum.countP (fun q => decide (P q.1))
      = ((l.enum.map Prod.fst).countP (fun j => decide (P j))) := by
    rw [List.countP_map]
    rfl
  rw [h2, List.enum_map_fst]

theorem nodup_of_length_le_one {l : List α} (h : l.length ≤ 1) : l.Nodup := by
  rcases l with _ | ⟨a, _ | ⟨b, t⟩⟩
  · exact List.nodup_nil
  · exact List.nodup_singleton a
  · simp at h

theorem cl_slot_count_le_one (i g : Nat) :
    (List.range 3).countP (fun j => decide ((i + j * 2) % 7 = g)) ≤ 1 := by
  have h3 : List.range 3 = [0, 1, 2] := rfl
  rw [h3]
  simp only [List.countP_cons, List.countP_nil, decide_eq_true_eq]
  split_ifs <;> omega

/-- C4: for every outcome of the random permutations (any ordering
`region_ids` of the 7 distinct region keys and any per-region team order
`region_map` with exactly 3 teams per region, each carrying its region's id),
the pot-based assignment `(i + j*2) % 7` puts exactly 3 teams in every group
and no group contains two teams from the same region. -/
theorem C4_cl_groups_valid (region_ids : List Nat) (region_map : Nat → List Team)
    (hlen : region_ids.length = 7) (hnodup : region_ids.Nodup)
    (hmap3 : ∀ r ∈ region_ids, (region_map r).length = 3)
    (hreg : ∀ r ∈ region_ids, ∀ t ∈ region_map r, t.region_id = r) :
    ∀ g < 7, (cl_group_assign region_ids region_map g).length = 3 ∧
      ((cl_group_assign region_ids region_map g).map (fun t => t.region_id)).Nodup := by
  intro g hg
  constructor
  · rw [cl_group_assign, List.length_flatten, List.map_map]
    have hcongr : region_ids.enum.map (List.length ∘ fun p =>
          (region_map p.2).enum.filterMap (fun q =>
            if (p.1 + q.1 * 2) % 7 = g then some q.2 else none))
        = region_ids.enum.map (fun p =>
          (List.range 3).countP (fun j => decide ((p.1 + j * 2) % 7 = g))) := by
      refine List.map_congr_left fun p hp => ?_
      simp only [Function.comp_apply]
      rw [length_filterMap_enum (fun j => (p.1 + j * 2) % 7 = g),
        hmap3 p.2 (List.snd_mem_of_mem_enum hp)]
    rw [hcongr]
    have hfst : region_ids.enum.map (fun p =>
          (List.range 3).countP (fun j => decide ((p.1 + j * 2) % 7 = g)))
        = (region_ids.enum.map Prod.fst).map (fun i =>
          (List.range 3).countP (fun j => decide ((i + j * 2) % 7 = g))) := by
      rw [List.map_map]
      rfl
    rw [hfst, List.enum_map_fst, hlen]
    interval_cases g <;> decide
  · rw [cl_group_assign, List.map_flatten, List.map_map]
    rw [List.nodup_flatten]
    constructor
    · intro l hl
      obtain ⟨p, hp, rfl⟩ := List.mem_map.mp hl
      refine nodup_of_length_le_one ?_
      simp only [Function.comp_apply, List.length_map]
      rw [length_filterMap_enum (fun j => (p.1 + j * 2) % 7 = g),
        hmap3 p.2 (List.snd_mem_of_mem_enum hp)]
      exact cl_slot_count_le_one p.1 g
    · refine List.pairwise_map.mpr ?_
      have hfstnd : (region_ids.enum.map Prod.fst).Nodup := by
        rw [List.enum_map_fst]
        exact List.nodup_range _
      have henum : region_ids.enum.Pairwise (fun a b => a.1 ≠ b.1) :=
        List.pairwise_map.mp hfstnd
      refine henum.imp_of_mem ?_
      intro a b ha hb hab
      intro x hx1 hx2
      obtain ⟨t1, ht1, rfl⟩ := List.mem_map.mp hx1
      obtain ⟨t2, ht2, heq⟩ := List.mem_map.mp hx2
      obtain ⟨q1, hq1, hf1⟩ := List.mem_filterMap.mp ht1
      obtain ⟨q2, hq2, hf2⟩ := List.mem_filterMap.mp ht2
      have ht1m : t1 ∈ region_map a.2 := by
        split at hf1
        · cases Option.some.inj hf1
          exact List.snd_mem_of_mem_enum hq1
        · exact absurd hf1 (by simp)
      have ht2m : t2 ∈ region_map b.2 := by
        split at hf2
        · cases Option.some.inj hf2
          exact List.snd_mem_of_mem_enum hq2
        · exact absurd hf2 (by simp)
      have hr1 : t1.region_id = a.2 :=
        hreg a.2 (List.snd_mem_of_mem_enum ha) t1 ht1m
      have hr2 : t2.region_id = b.2 :=
        hreg b.2 (List.snd_mem_of_mem_enum hb) t2 ht2m
      have hab2 : a.2 = b.2 := by
        rw [← hr1, ← hr2, heq]
      obtain ⟨i1, r1⟩ := a
      obtain ⟨i2, r2⟩ := b
      obtain ⟨hi1, he1⟩ := List.mem_enum ha
      obtain ⟨hi2, he2⟩ := List.mem_enum hb
      simp only at hab hab2
      apply hab
      rw [← hnodup.getElem_inj_iff]
      rw [← he1, ← he2]
      exact hab2

def c4rmap : Nat → List Team := fun r =>
  if 10 ≤ r ∧ r ≤ 16 then
    [{ id := r * 10 + 1, county_id := 0, region_id := r },
     { id := r * 10 + 2, county_id := 0, region_id := r },
     { id := r * 10 + 3, county_id := 0, region_id := r }]
  else []

theorem C4_cl_groups_valid_witness :
    (cl_group_assign [10, 11, 12, 13, 14, 15, 16] c4rmap 0).length = 3 ∧
    ((cl_group_assign [10, 11, 12, 13, 14, 15, 16] c4rmap 0).map
      (fun t => t.region_id)).Nodup :=
  C4_cl_groups_valid [10, 11, 12, 13, 14, 15, 16] c4rmap (by decide) (by decide)
    (by decide) (by decide) 0 (by decide)

/- ── Full cup bracket (`generate_cup_draw`, scheduler_service.py 392-508) ── -/

/-- Python `int.bit_length`, written with structural fuel so that the kernel
can evaluate it (`bit_length n` always runs with fuel `n ≥ n`). -/
def bitLenAux : Nat → Nat → Nat
  | 0, _ => 0
  | fuel + 1, n => if n = 0 then 0 else bitLenAux fuel (n / 2) + 1

def bit_length (n : Nat) : Nat := bitLenAux n n

/-- Python `int(math.log2(x))` on a positive integer: the floor log, which is
`bit_length x - 1`. -/
def int_log2 (n : Nat) : Nat := bit_length n - 1

/-- `_next_power_of_2` (lines 679-681): `1 << (n - 1).bit_length()`. -/
def next_power_of_2 (n : Nat) : Nat := 1 <<< bit_length (n - 1)

/-- `_bracket_pos_to_stage` (lines 697-713): depth in the heap picks the
stage, defaulting to ROUND_1. -/
def bracket_pos_to_stage (bp total_rounds : Nat) : MatchStage :=
  match int_log2 bp with
  | 0 => MatchStage.FINAL
  | 1 => MatchStage.SEMI_FINAL
  | 2 => MatchStage.QUARTER_FINAL
  | 3 => MatchStage.ROUND_OF_16
  | 4 => MatchStage.ROUND_3
  | 5 => MatchStage.ROUND_2
  | _ => MatchStage.ROUND_1

/-- The inner placeholder matches of lines 435-453: one per bracket position
`1 .. leaf_start-1`, with no teams. -/
def cupPlaceholders (cid sid : Nat) (start_date interval_days : Int)
    (num_rounds leaf_start : Nat) : List Match :=
  (List.range' 1 (leaf_start - 1)).map (fun bp =>
    let round_num := num_rounds - int_log2 bp
    { competition_id := cid, season_id := sid,
      match_date := some (start_date + ((round_num : Int) - 1) * interval_days),
      stage := some (bracket_pos_to_stage bp num_rounds),
      bracket_position := some bp, round_number := some round_num,
      status := MatchStatus.SCHEDULED })

/-- The bye loop of lines 461-472: bye team `i` sits at leaf
`bp = leaf_start + i` and is written into its parent's home slot when `bp` is
even, away slot when odd; a missing parent is skipped. -/
def applyByes (placeholders : List Match) (bye_teams : List Team)
    (leaf_start : Nat) : List Match :=
  bye_teams.enum.foldl (fun ms p =>
    let bp := leaf_start + p.1
    updateFirst (fun m => m.bracket_position == some (bp / 2))
      (fun m => if bp % 2 == 0 then { m with home_team_id := some p.2.id }
                else { m with away_team_id := some p.2.id }) ms) placeholders

/-- The playing-leaf loop of lines 475-498: for `i` in
`range(num_byes, leaf_start)`, pair `playing_teams[2k]` against
`playing_teams[2k+1]` at leaf `leaf_start + i` as a ROUND_1 match. -/
def cupRound1 (cid sid : Nat) (start_date : Int) (playing : List Team)
    (leaf_start num_byes : Nat) : List Match :=
  (List.range (leaf_start - num_byes)).map (fun k =>
    { competition_id := cid, season_id := sid,
      home_team_id := (playing[2 * k]?).map (fun t => t.id),
      away_team_id := (playing[2 * k + 1]?).map (fun t => t.id),
      match_date := some start_date,
      stage := some MatchStage.ROUND_1,
      bracket_position := some (leaf_start + num_byes + k),
      round_number := some 1, status := MatchStatus.SCHEDULED })

/-- Everything `generate_cup_draw` returns (lines 500-508). -/
structure CupDraw where
  «matches» : List Match
  round1_matches : List Match
  bye_team_ids : List Nat
  num_byes : Nat
  total_rounds : Nat
deriving DecidableEq, Repr

/-- `generate_cup_draw(competition_id, start_date, interval_days)`
(lines 392-508).  `random.shuffle(teams)` (line 425) is modelled by taking
the competition's stored team order as the shuffled order: every shuffle
outcome is some database state. -/
def generate_cup_draw (db : DB) (competition_id : Nat)
    (start_date interval_days : Int) : Option CupDraw × Option String :=
  match dbGetCompetition db competition_id with
  | none => (none, some "Competition not found")
  | some competition =>
    if competition.type ≠ CompetitionType.CUP then
      (none, some "Cup draw is only for cup competitions")
    else if competition.teams.length < 2 then
      (none, some "Competition must have at least 2 teams")
    else if (db.matches.find? (fun m =>
        m.competition_id == competition_id && m.bracket_position.isSome)).isSome then
      (none, some "Cup bracket already generated for this competition")
    else
      let n := competition.teams.length
      let bracket_size := next_power_of_2 n
      let num_rounds := int_log2 bracket_size
      let num_byes := bracket_size - n
      let leaf_start := bracket_size / 2
      let bye_teams := competition.teams.take num_byes
      let playing_teams := competition.teams.drop num_byes
      let inner := applyByes
        (cupPlaceholders competition_id competition.season_id start_date
          interval_days num_rounds leaf_start) bye_teams leaf_start
      let round1 := cupRound1 competition_id competition.season_id start_date
        playing_teams leaf_start num_byes
      (some { «matches» := inner ++ round1, round1_matches := round1,
              bye_team_ids := bye_teams.map (fun t => t.id),
              num_byes := num_byes, total_rounds := num_rounds }, none)

theorem size_div2_succ (n : Nat) (h : n ≠ 0) :
    Nat.size n = Nat.size (n / 2) + 1 := by
  have h1 : n / 2 < 2 ^ Nat.size (n / 2) := Nat.lt_size_self (n / 2)
  have hub : n < 2 ^ (Nat.size (n / 2) + 1) := by
    rw [pow_succ]
    omega
  have hle : Nat.size n ≤ Nat.size (n / 2) + 1 := Nat.size_le.mpr hub
  have hgt : Nat.size (n / 2) < Nat.size n := by
    rcases Nat.eq_zero_or_pos (n / 2) with h0 | hpos
    · rw [h0, Nat.size_zero]
      exact Nat.size_pos.mpr (by omega)
    · have hs : 0 < Nat.size (n / 2) := Nat.size_pos.mpr hpos
      have h2 : 2 ^ (Nat.size (n / 2) - 1) ≤ n / 2 := Nat.lt_size.mp (by omega)
      refine Nat.lt_size.mpr ?_
      have hsplit : Nat.size (n / 2) = (Nat.size (n / 2) - 1) + 1 := by omega
      conv_lhs => rw [hsplit]
      rw [pow_succ]
      omega
  omega

theorem bitLenAux_eq (fuel : Nat) : ∀ n ≤ fuel, bitLenAux fuel n = Nat.size n := by
  induction fuel with
  | zero =>
    intro n hn
    have : n = 0 := by omega
    subst this
    rw [bitLenAux, Nat.size_zero]
  | succ f ih =>
    intro n hn
    rw [bitLenAux]
    split
    · rename_i h0
      subst h0
      rw [Nat.size_zero]
    · rename_i h0
      rw [ih (n / 2) (by omega)]
      exact (size_div2_succ n h0).symm

theorem bit_length_eq_size (n : Nat) : bit_length n = Nat.size n :=
  bitLenAux_eq n n (Nat.le_refl n)

theorem next_power_of_2_pow (n : Nat) :
    next_power_of_2 n = 2 ^ Nat.size (n - 1) := by
  rw [next_power_of_2, bit_length_eq_size, Nat.shiftLeft_eq, one_mul]

theorem le_next_power_of_2 (n : Nat) : n ≤ next_power_of_2 n := by
  have h := Nat.lt_size_self (n - 1)
  rw [next_power_of_2_pow]
  omega

theorem next_power_of_2_le (n : Nat) (hn : 2 ≤ n) :
    next_power_of_2 n ≤ 2 * (n - 1) := by
  have hs : 0 < Nat.size (n - 1) := Nat.size_pos.mpr (by omega)
  have h2 : 2 ^ (Nat.size (n - 1) - 1) ≤ n - 1 := Nat.lt_size.mp (by omega)
  have hsplit : Nat.size (n - 1) = (Nat.size (n - 1) - 1) + 1 := by omega
  rw [next_power_of_2_pow, hsplit, pow_succ]
  omega

theorem next_power_of_2_even (n : Nat) (hn : 2 ≤ n) :
    next_power_of_2 n = 2 * 2 ^ (Nat.size (n - 1) - 1) := by
  have hs : 0 < Nat.size (n - 1) := Nat.size_pos.mpr (by omega)
  have hsplit : Nat.size (n - 1) = (Nat.size (n - 1) - 1) + 1 := by omega
  rw [next_power_of_2_pow]
  conv_lhs => rw [hsplit]
  rw [pow_succ]
  omega

theorem next_power_of_2_eq_iff (n : Nat) (hn : 2 ≤ n) :
    next_power_of_2 n = n ↔ ∃ k, n = 2 ^ k := by
  constructor
  · intro h
    exact ⟨Nat.size (n - 1), h.symm.trans (next_power_of_2_pow n)⟩
  · rintro ⟨k, rfl⟩
    have hle : 2 ^ k ≤ next_power_of_2 (2 ^ k) := le_next_power_of_2 _
    have hge : next_power_of_2 (2 ^ k) ≤ 2 ^ k := by
      rw [next_power_of_2_pow]
      refine Nat.pow_le_pow_right (by omega) ?_
      refine Nat.size_le.mpr ?_
      have := Nat.pos_pow_of_pos k (show 0 < 2 by omega)
      omega
    omega

theorem updateFirst_length (p : Match → Bool) (f : Match → Match)
    (ms : List Match) : (updateFirst p f ms).length = ms.length := by
  induction ms with
  | nil => rfl
  | cons m ms ih =>
    rw [updateFirst]
    split
    · rfl
    · simp only [List.length_cons, ih]

theorem applyByes_length (placeholders : List Match) (bye_teams : List Team)
    (leaf_start : Nat) :
    (applyByes placeholders bye_teams leaf_start).length = placeholders.length := by
  rw [applyByes]
  generalize bye_teams.enum = L
  induction L generalizing placeholders with
  | nil => rfl
  | cons p ps ih =>
    rw [List.foldl_cons]
    exact (ih _).trans (updateFirst_length _ _ _)

theorem cupPlaceholders_length (cid sid : Nat) (sd iv : Int)
    (num_rounds leaf_start : Nat) :
    (cupPlaceholders cid sid sd iv num_rounds leaf_start).length
      = leaf_start - 1 := by
  rw [cupPlaceholders, List.length_map, List.length_range']

theorem cupRound1_length (cid sid : Nat) (sd : Int) (playing : List Team)
    (leaf_start num_byes : Nat) :
    (cupRound1 cid sid sd playing leaf_start num_byes).length
      = leaf_start - num_byes := by
  rw [cupRound1, List.length_map, List.length_range]

def c5teams : List Team :=
  (List.range 48).map (fun i => { id := i + 1, county_id := 0, region_id := 0 })

def c5comp : Competition :=
  { id := 1, type := CompetitionType.CUP, season_id := 1, teams := c5teams }

def c5db : DB := { competitions := [c5comp], «matches» := [], standings := [] }

/-- C5: a successful `generate_cup_draw` over `n ≥ 2` teams has
`num_byes = next_power_of_2 n - n` (zero exactly when `n` is a power of two),
emits the inner placeholders (`bracket_size/2 - 1` of them) followed by the
`(n - num_byes)/2` real ROUND_1 matches, `n - 1` matches in total; and on the
48-team cup of Section 8 scenario 5 this is 47 matches (31 placeholders plus
16 ROUND_1, 16 byes) with every bye team pre-filled into a slot whose
`round_number` is 2. -/
theorem C5_cup_draw_counts {db : DB} {cid : Nat} {sd iv : Int} {comp : Competition}
    (hc : dbGetCompetition db cid = some comp)
    (hty : comp.type = CompetitionType.CUP)
    (hn : 2 ≤ comp.teams.length)
    (hnone : db.«matches».find? (fun m =>
      m.competition_id == cid && m.bracket_position.isSome) = none) :
    (∃ draw : CupDraw, generate_cup_draw db cid sd iv = (some draw, none) ∧
      draw.num_byes = next_power_of_2 comp.teams.length - comp.teams.length ∧
      (draw.num_byes = 0 ↔ ∃ k, comp.teams.length = 2 ^ k) ∧
      (∃ inner, draw.«matches» = inner ++ draw.round1_matches ∧
        inner.length = next_power_of_2 comp.teams.length / 2 - 1) ∧
      draw.round1_matches.length
        = (comp.teams.length - draw.num_byes) / 2 ∧
      draw.«matches».length = comp.teams.length - 1) ∧
    (generate_cup_draw c5db 1 0 7).1.map (fun d =>
      (d.«matches».length, d.round1_matches.length, d.num_byes))
      = some (47, 16, 16) ∧
    (generate_cup_draw c5db 1 0 7).1.map (fun d =>
      decide (∀ tid ∈ d.bye_team_ids, ∃ m ∈ d.«matches»,
        m.round_number = some 2 ∧
          (m.home_team_id = some tid ∨ m.away_team_id = some tid))) = some true := by
  refine ⟨?_, by decide, by decide⟩
  have hle : comp.teams.length ≤ next_power_of_2 comp.teams.length :=
    le_next_power_of_2 _
  have hlt : next_power_of_2 comp.teams.length ≤ 2 * (comp.teams.length - 1) :=
    next_power_of_2_le _ hn
  have heven : next_power_of_2 comp.teams.length
      = 2 * 2 ^ (Nat.size (comp.teams.length - 1) - 1) :=
    next_power_of_2_even _ hn
  have hgen : generate_cup_draw db cid sd iv = (some
      { «matches» := applyByes
          (cupPlaceholders cid comp.season_id sd iv
            (int_log2 (next_power_of_2 comp.teams.length))
            (next_power_of_2 comp.teams.length / 2))
          (comp.teams.take (next_power_of_2 comp.teams.length - comp.teams.length))
          (next_power_of_2 comp.teams.length / 2) ++
          cupRound1 cid comp.season_id sd
            (comp.teams.drop (next_power_of_2 comp.teams.length - comp.teams.length))
            (next_power_of_2 comp.teams.length / 2)
            (next_power_of_2 comp.teams.length - comp.teams.length),
        round1_matches := cupRound1 cid comp.season_id sd
          (comp.teams.drop (next_power_of_2 comp.teams.length - comp.teams.length))
          (next_power_of_2 comp.teams.length / 2)
          (next_power_of_2 comp.teams.length - comp.teams.length),
        bye_team_ids := (comp.teams.take
          (next_power_of_2 comp.teams.length - comp.teams.length)).map
          (fun t => t.id),
        num_byes := next_power_of_2 comp.teams.length - comp.teams.length,
        total_rounds := int_log2 (next_power_of_2 comp.teams.length) }, none) := by
    rw [generate_cup_draw, hc, hnone]
    exact ((if_neg (fun h => h hty)).trans ((if_neg (by omega)).trans
      (if_neg (by simp))))
  refine ⟨_, hgen, rfl, ?_, ⟨_, rfl, ?_⟩, ?_, ?_⟩
  · show next_power_of_2 comp.teams.length - comp.teams.length = 0 ↔ _
    have hiff := next_power_of_2_eq_iff comp.teams.length hn
    constructor
    · intro h0
      exact hiff.mp (by omega)
    · intro hk
      have := hiff.mpr hk
      omega
  · rw [applyByes_length, cupPlaceholders_length]
  · show (cupRound1 cid comp.season_id sd
        (comp.teams.drop (next_power_of_2 comp.teams.length - comp.teams.length))
        (next_power_of_2 comp.teams.length / 2)
        (next_power_of_2 comp.teams.length - comp.teams.length)).length
      = (comp.teams.length
          - (next_power_of_2 comp.teams.length - comp.teams.length)) / 2
    rw [cupRound1_length]
    omega
  · show (applyByes
        (cupPlaceholders cid comp.season_id sd iv
          (int_log2 (next_power_of_2 comp.teams.length))
          (next_power_of_2 comp.teams.length / 2))
        (comp.teams.take (next_power_of_2 comp.teams.length - comp.teams.length))
        (next_power_of_2 comp.teams.length / 2) ++
        cupRound1 cid comp.season_id sd
          (comp.teams.drop (next_power_of_2 comp.teams.length - comp.teams.length))
          (next_power_of_2 comp.teams.length / 2)
          (next_power_of_2 comp.teams.length - comp.teams.length)).length = _
    rw [List.length_append, applyByes_length, cupPlaceholders_length,
      cupRound1_length]
    omega

theorem C5_cup_draw_counts_witness :
    (∃ draw : CupDraw, generate_cup_draw c5db 1 0 7 = (some draw, none) ∧
      draw.num_byes = next_power_of_2 c5comp.teams.length - c5comp.teams.length ∧
      (draw.num_byes = 0 ↔ ∃ k, c5comp.teams.length = 2 ^ k) ∧
      (∃ inner, draw.«matches» = inner ++ draw.round1_matches ∧
        inner.length = next_power_of_2 c5comp.teams.length / 2 - 1) ∧
      draw.round1_matches.length
        = (c5comp.teams.length - draw.num_byes) / 2 ∧
      draw.«matches».length = c5comp.teams.length - 1) ∧
    (generate_cup_draw c5db 1 0 7).1.map (fun d =>
      (d.«matches».length, d.round1_matches.length, d.num_byes))
      = some (47, 16, 16) ∧
    (generate_cup_draw c5db 1 0 7).1.map (fun d =>
      decide (∀ tid ∈ d.bye_team_ids, ∃ m ∈ d.«matches»,
        m.round_number = some 2 ∧
          (m.home_team_id = some tid ∨ m.away_team_id = some tid))) = some true :=
  C5_cup_draw_counts (by rfl) (by rfl) (by decide) (by rfl)

/- ── Standings recomputation (`recalculate_standings`, standings.py 77-165) ── -/

/-- The per-team counter dict initialised at lines 101-108. -/
structure TeamStats where
  played : Nat := 0
  won : Nat := 0
  drawn : Nat := 0
  lost : Nat := 0
  goals_for : Nat := 0
  goals_against : Nat := 0
deriving DecidableEq, Repr

/-- `if team_id not in stats: stats[team_id] = {...}` (lines 100-108): a dict
modelled as an association list in first-insertion order. -/
def ensureTeam (stats : List (Nat × TeamStats)) (tid : Nat) :
    List (Nat × TeamStats) :=
  if stats.any (fun p => p.1 == tid) then stats
  else stats ++ [(tid, TeamStats.mk 0 0 0 0 0 0)]

/-- Mutation of one dict entry. -/
def updTeam (stats : List (Nat × TeamStats)) (tid : Nat)
    (f : TeamStats → TeamStats) : List (Nat × TeamStats) :=
  stats.map (fun p => if p.1 == tid then (p.1, f p.2) else p)

/-- The stats accumulation for one match (lines 98-133).  Standings-stage
matches always carry both team ids and scores; `getD 0` totalises the
`Option`s. -/
def accumulate_match (stats : List (Nat × TeamStats)) (m : Match) :
    List (Nat × TeamStats) :=
  let hid := m.home_team_id.getD 0
  let aid := m.away_team_id.getD 0
  let hs := m.home_score.getD 0
  let aw := m.away_score.getD 0
  let s0 := ensureTeam (ensureTeam stats hid) aid
  let s1 := updTeam s0 hid (fun t =>
    { t with
      played := t.played + 1
      goals_for := t.goals_for + hs
      goals_against := t.goals_against + aw })
  let s2 := updTeam s1 aid (fun t =>
    { t with
      played := t.played + 1
      goals_for := t.goals_for + aw
      goals_against := t.goals_against + hs })
  if hs > aw then
    updTeam (updTeam s2 hid (fun t => { t with won := t.won + 1 })) aid
      (fun t => { t with lost := t.lost + 1 })
  else if hs < aw then
    updTeam (updTeam s2 aid (fun t => { t with won := t.won + 1 })) hid
      (fun t => { t with lost := t.lost + 1 })
  else
    updTeam (updTeam s2 hid (fun t => { t with drawn := t.drawn + 1 })) aid
      (fun t => { t with drawn := t.drawn + 1 })

/-- `if match.group_name and team_id not in team_groups` (lines 110-111);
Python's truthiness makes the empty string falsy. -/
def addGroup (tg : List (Nat × String)) (gname : Option String) (tid : Nat) :
    List (Nat × String) :=
  match gname with
  | none => tg
  | some s =>
    if s = "" then tg
    else if tg.any (fun p => p.1 == tid) then tg
    else tg ++ [(tid, s)]

def track_match (tg : List (Nat × String)) (m : Match) : List (Nat × String) :=
  addGroup (addGroup tg m.group_name (m.home_team_id.getD 0)) m.group_name
    (m.away_team_id.getD 0)

/-- Lines 151-163: overwrite a Standing row's computed fields, stamp
`updated_at = datetime.now(...)` (line 159, `now` here), and propagate the
tracked group name. -/
def applyEntry (now : Int) (tg : List (Nat × String)) (entry : Nat × TeamStats)
    (st : Standing) : Standing :=
  let s := entry.2
  let st' : Standing :=
    { st with
      played := s.played
      won := s.won
      drawn := s.drawn
      lost := s.lost
      goals_for := s.goals_for
      goals_against := s.goals_against
      goal_difference := (s.goals_for : Int) - (s.goals_against : Int)
      points := s.won * 3 + s.drawn * 1
      updated_at := now }
  match tg.find? (fun p => p.1 == entry.1) with
  | some p => { st' with group_name := some p.2 }
  | none => st'

/-- Generic first-match in-place update (the SQLAlchemy `.first()` row the
loop mutates). -/
def updateFirstBy (p : α → Bool) (f : α → α) : List α → List α
  | [] => []
  | x :: xs => if p x then f x :: xs else x :: updateFirstBy p f xs

/-- The row targeted by `Standing.query.filter_by(...)` (lines 137-141). -/
def standingKey (cid sid tid : Nat) (st : Standing) : Bool :=
  st.team_id == tid && st.competition_id == cid && st.season_id == sid

/-- One iteration of the upsert loop (lines 136-163): update the first
matching row, else append a fresh row (`db.session.add`). -/
def upsertStanding (cid sid : Nat) (now : Int) (tg : List (Nat × String))
    (rows : List Standing) (entry : Nat × TeamStats) : List Standing :=
  if rows.any (standingKey cid sid entry.1) then
    updateFirstBy (standingKey cid sid entry.1) (applyEntry now tg entry) rows
  else
    rows ++ [applyEntry now tg entry
      { team_id := entry.1, competition_id := cid, season_id := sid }]

/-- `recalculate_standings(competition_id, season_id)` (lines 77-165) with the
match table, the standings table and the wall clock passed explicitly. -/
def recalculate_standings (standings : List Standing) (ms : List Match)
    (competition_id season_id : Nat) (now : Int) : List Standing :=
  let confirmed := ms.filter (standingsMatchFilter competition_id season_id)
  let stats := confirmed.foldl accumulate_match []
  let tg := confirmed.foldl track_match []
  stats.foldl (upsertStanding competition_id season_id now tg) standings

theorem standingKey_applyEntry (cid sid tid : Nat) (t : Int)
    (tg : List (Nat × String)) (e : Nat × TeamStats) (st : Standing) :
    standingKey cid sid tid (applyEntry t tg e st) = standingKey cid sid tid st := by
  rw [applyEntry]
  split <;> rfl

theorem applyEntry_applyEntry (t1 t2 : Int) (tg : List (Nat × String))
    (e : Nat × TeamStats) (st : Standing) :
    applyEntry t2 tg e (applyEntry t1 tg e st) = applyEntry t2 tg e st := by
  simp only [applyEntry]
  rcases h : tg.find? (fun p => p.1 == e.1) with _ | p <;> simp only [h] <;> rfl

theorem any_updateFirstBy (p r : α → Bool) (f : α → α) (l : List α)
    (hpres : ∀ x, r (f x) = r x) :
    (updateFirstBy p f l).any r = l.any r := by
  induction l with
  | nil => rfl
  | cons x xs ih =>
    rw [updateFirstBy]
    split
    · simp [hpres]
    · simp [ih]

theorem updateFirstBy_no_match (p : α → Bool) (f : α → α) (l : List α)
    (h : ∀ y ∈ l, p y = false) : updateFirstBy p f l = l := by
  induction l with
  | nil => rfl
  | cons x xs ih =>
    rw [updateFirstBy, if_neg (by simp [h x (List.mem_cons_self x xs)])]
    rw [ih fun y hy => h y (List.mem_cons_of_mem _ hy)]

theorem updateFirstBy_append_right_clean (p : α → Bool) (f : α → α)
    (xs ys : List α) (h : ∀ y ∈ ys, p y = false) :
    updateFirstBy p f (xs ++ ys) = updateFirstBy p f xs ++ ys := by
  induction xs with
  | nil => simpa using updateFirstBy_no_match p f ys h
  | cons x xs ih =>
    rw [List.cons_append, updateFirstBy, updateFirstBy]
    split
    · rw [List.cons_append]
    · rw [ih, List.cons_append]

theorem updateFirstBy_absorb (p : α → Bool) (f g : α → α) (l : List α)
    (hpg : ∀ x, p (g x) = p x) (hfg : ∀ x, f (g x) = f x) :
    updateFirstBy p f (updateFirstBy p g l) = updateFirstBy p f l := by
  induction l with
  | nil => rfl
  | cons x xs ih =>
    rw [updateFirstBy]
    split
    · rename_i hx
      rw [updateFirstBy, if_pos (by rw [hpg]; exact hx), hfg,
        updateFirstBy, if_pos hx]
    · rename_i hx
      rw [updateFirstBy, if_neg hx, ih, updateFirstBy, if_neg hx]

theorem updateFirstBy_comm (p r : α → Bool) (f g : α → α) (l : List α)
    (hdisj : ∀ x, ¬(p x = true ∧ r x = true))
    (hpg : ∀ x, p (g x) = p x) (hrf : ∀ x, r (f x) = r x) :
    updateFirstBy p f (updateFirstBy r g l) = updateFirstBy r g (updateFirstBy p f l) := by
  induction l with
  | nil => rfl
  | cons x xs ih =>
    by_cases hr : r x = true
    · have hp : ¬ p x = true := fun hpx => hdisj x ⟨hpx, hr⟩
      rw [updateFirstBy, if_pos hr]
      rw [updateFirstBy, if_neg (fun h => hp ((hpg x).symm.trans h))]
      rw [updateFirstBy, if_neg hp]
      rw [updateFirstBy, if_pos hr]
    · by_cases hp : p x = true
      · rw [updateFirstBy, if_neg hr]
        rw [updateFirstBy, if_pos hp]
        rw [updateFirstBy, if_pos hp]
        rw [updateFirstBy, if_neg (fun h => hr ((hrf x).symm.trans h))]
      · rw [updateFirstBy, if_neg hr]
        rw [updateFirstBy, if_neg hp]
        rw [updateFirstBy, if_neg hp]
        rw [updateFirstBy, if_neg hr]
        rw [ih]

theorem updateFirstBy_append_left_clean (p : α → Bool) (f : α → α)
    (xs ys : List α) (h : ∀ y ∈ xs, p y = false) :
    updateFirstBy p f (xs ++ ys) = xs ++ updateFirstBy p f ys := by
  induction xs with
  | nil => rfl
  | cons x xs ih =>
    rw [List.cons_append, updateFirstBy,
      if_neg (by simp [h x (List.mem_cons_self x xs)]),
      ih (fun y hy => h y (List.mem_cons_of_mem _ hy)), List.cons_append]

theorem upsert_pres_self (cid sid : Nat) (t : Int) (tg : List (Nat × String))
    (rows : List Standing) (e : Nat × TeamStats) :
    (upsertStanding cid sid t tg rows e).any (standingKey cid sid e.1) = true := by
  rw [upsertStanding]
  split
  · rename_i h
    rw [any_updateFirstBy _ _ _ _ (fun x => standingKey_applyEntry cid sid e.1 t tg e x)]
    exact h
  · rw [List.any_append]
    have h2 : standingKey cid sid e.1 (applyEntry t tg e
        { team_id := e.1, competition_id := cid, season_id := sid }) = true := by
      rw [standingKey_applyEntry]
      simp [standingKey]
    simp [h2]

theorem upsert_pres_mono (cid sid tid : Nat) (t : Int) (tg : List (Nat × String))
    (rows : List Standing) (e : Nat × TeamStats)
    (h : rows.any (standingKey cid sid tid) = true) :
    (upsertStanding cid sid t tg rows e).any (standingKey cid sid tid) = true := by
  rw [upsertStanding]
  split
  · rw [any_updateFirstBy _ _ _ _ (fun x => standingKey_applyEntry cid sid tid t tg e x)]
    exact h
  · rw [List.any_append]
    simp [h]

theorem upd_absorb (cid sid : Nat) (t1 t2 : Int) (tg : List (Nat × String))
    (rows : List Standing) (e : Nat × TeamStats) :
    updateFirstBy (standingKey cid sid e.1) (applyEntry t2 tg e)
      (upsertStanding cid sid t1 tg rows e) = upsertStanding cid sid t2 tg rows e := by
  rw [upsertStanding, upsertStanding]
  split
  · exact updateFirstBy_absorb _ _ _ _
      (fun x => standingKey_applyEntry cid sid e.1 t1 tg e x)
      (fun x => applyEntry_applyEntry t1 t2 tg e x)
  · rename_i h
    have hany : rows.any (standingKey cid sid e.1) = false := by
      simpa using h
    have hrows : ∀ y ∈ rows, standingKey cid sid e.1 y = false :=
      fun y hy => by simpa using List.any_eq_false.mp hany y hy
    rw [updateFirstBy_append_left_clean _ _ _ _ hrows, updateFirstBy,
      if_pos (show standingKey cid sid e.1 (applyEntry t1 tg e
          { team_id := e.1, competition_id := cid, season_id := sid }) = true by
        rw [standingKey_applyEntry]
        simp [standingKey]),
      applyEntry_applyEntry]

theorem upd_comm_upsert (cid sid : Nat) (t1 t2 : Int) (tg : List (Nat × String))
    (rows : List Standing) (e e' : Nat × TeamStats) (hne : e'.1 ≠ e.1) :
    updateFirstBy (standingKey cid sid e.1) (applyEntry t2 tg e)
      (upsertStanding cid sid t1 tg rows e')
    = upsertStanding cid sid t1 tg
        (updateFirstBy (standingKey cid sid e.1) (applyEntry t2 tg e) rows) e' := by
  rw [upsertStanding, upsertStanding,
    any_updateFirstBy _ _ _ _ (fun x => standingKey_applyEntry cid sid e'.1 t2 tg e x)]
  split
  · exact updateFirstBy_comm _ _ _ _ _
      (fun x hx => by
        have h1 : x.team_id = e.1 := by
          have := hx.1
          simp [standingKey] at this
          exact this.1.1
        have h2 : x.team_id = e'.1 := by
          have := hx.2
          simp [standingKey] at this
          exact this.1.1
        exact hne (h2 ▸ h1))
      (fun x => standingKey_applyEntry cid sid e.1 t1 tg e' x)
      (fun x => standingKey_applyEntry cid sid e'.1 t2 tg e x)
  · rw [updateFirstBy_append_right_clean _ _ _ _ (fun y hy => by
      rw [List.mem_singleton] at hy
      subst hy
      rw [standingKey_applyEntry]
      simp [standingKey]
      exact fun h1 => absurd h1 hne)]

theorem foldl_upsert_pres (cid sid tid : Nat) (t : Int) (tg : List (Nat × String))
    (ES : List (Nat × TeamStats)) :
    ∀ rows : List Standing, rows.any (standingKey cid sid tid) = true →
      (ES.foldl (upsertStanding cid sid t tg) rows).any (standingKey cid sid tid) = true := by
  induction ES with
  | nil => exact fun rows h => h
  | cons e ES' ih =>
    intro rows h
    rw [List.foldl_cons]
    exact ih _ (upsert_pres_mono cid sid tid t tg rows e h)

theorem foldl_upd_comm (cid sid : Nat) (t1 t2 : Int) (tg : List (Nat × String))
    (e : Nat × TeamStats) (ES : List (Nat × TeamStats))
    (he : ∀ x ∈ ES, x.1 ≠ e.1) :
    ∀ rows : List Standing,
      updateFirstBy (standingKey cid sid e.1) (applyEntry t2 tg e)
        (ES.foldl (upsertStanding cid sid t1 tg) rows)
      = ES.foldl (upsertStanding cid sid t1 tg)
          (updateFirstBy (standingKey cid sid e.1) (applyEntry t2 tg e) rows) := by
  induction ES with
  | nil => exact fun rows => rfl
  | cons e' ES' ih =>
    intro rows
    rw [List.foldl_cons, List.foldl_cons,
      ih (fun x hx => he x (List.mem_cons_of_mem _ hx)),
      upd_comm_upsert cid sid t1 t2 tg rows e e' (he e' (List.mem_cons_self _ _))]

theorem upsert_all_absorb (cid sid : Nat) (t1 t2 : Int) (tg : List (Nat × String)) :
    ∀ ES : List (Nat × TeamStats), ES.Pairwise (fun a b => a.1 ≠ b.1) →
      ∀ rows : List Standing,
        ES.foldl (upsertStanding cid sid t2 tg)
          (ES.foldl (upsertStanding cid sid t1 tg) rows)
        = ES.foldl (upsertStanding cid sid t2 tg) rows := by
  intro ES
  induction ES with
  | nil => exact fun _ rows => rfl
  | cons e ES' ih =>
    intro hnd rows
    rw [List.pairwise_cons] at hnd
    rw [List.foldl_cons, List.foldl_cons]
    have hpres : (ES'.foldl (upsertStanding cid sid t1 tg)
        (upsertStanding cid sid t1 tg rows e)).any (standingKey cid sid e.1) = true :=
      foldl_upsert_pres cid sid e.1 t1 tg ES' _ (upsert_pres_self cid sid t1 tg rows e)
    have hstep : upsertStanding cid sid t2 tg
        (ES'.foldl (upsertStanding cid sid t1 tg)
          (upsertStanding cid sid t1 tg rows e)) e
        = ES'.foldl (upsertStanding cid sid t1 tg)
            (upsertStanding cid sid t2 tg rows e) := by
      rw [upsertStanding, if_pos hpres,
        foldl_upd_comm cid sid t1 t2 tg e ES'
          (fun x hx => (hnd.1 x hx).symm) _,
        upd_absorb]
    rw [hstep]
    exact ih hnd.2 _

theorem updTeam_keys (stats : List (Nat × TeamStats)) (tid : Nat)
    (f : TeamStats → TeamStats) :
    (updTeam stats tid f).map Prod.fst = stats.map Prod.fst := by
  rw [updTeam, List.map_map]
  refine List.map_congr_left fun p _ => ?_
  simp only [Function.comp_apply]
  split <;> rfl

theorem ensureTeam_keys_nodup (stats : List (Nat × TeamStats)) (tid : Nat)
    (h : (stats.map Prod.fst).Nodup) :
    ((ensureTeam stats tid).map Prod.fst).Nodup := by
  rw [ensureTeam]
  split
  · exact h
  · rename_i hno
    rw [List.map_append]
    refine List.Nodup.append h (List.nodup_singleton _) ?_
    intro a ha hb
    simp only [List.map_cons, List.map_nil, List.mem_singleton] at hb
    subst hb
    obtain ⟨p, hp, hfst⟩ := List.mem_map.mp ha
    exact hno (List.any_eq_true.mpr ⟨p, hp, by simp [hfst]⟩)

theorem accumulate_keys_nodup (stats : List (Nat × TeamStats)) (m : Match)
    (h : (stats.map Prod.fst).Nodup) :
    ((accumulate_match stats m).map Prod.fst).Nodup := by
  rw [accumulate_match]
  have hbase : ((ensureTeam (ensureTeam stats (m.home_team_id.getD 0))
      (m.away_team_id.getD 0)).map Prod.fst).Nodup :=
    ensureTeam_keys_nodup _ _ (ensureTeam_keys_nodup _ _ h)
  split_ifs <;> simp only [updTeam_keys] <;> exact hbase

theorem stats_keys_nodup (ms : List Match) :
    ((ms.foldl accumulate_match []).map Prod.fst).Nodup := by
  have hgen : ∀ stats : List (Nat × TeamStats), (stats.map Prod.fst).Nodup →
      ((ms.foldl accumulate_match stats).map Prod.fst).Nodup := by
    induction ms with
    | nil => exact fun stats h => h
    | cons m ms ih =>
      intro stats h
      rw [List.foldl_cons]
      exact ih _ (accumulate_keys_nodup stats m h)
  exact hgen [] (by simp)

/-- C6 (amended): a second run of `recalculate_standings` is absorbed by the
last run — for every database state and any two wall-clock instants,
recalculating at `t1` and then again at `t2` produces exactly the rows of a
single recalculation at `t2`.  With an unchanged clock (`t2 = t1`) the double
call is therefore byte-identical to the single call; with a moved clock the
rows differ precisely in the re-stamped `updated_at` (line 159), which is what
refutes the literal byte-identical idempotence claim
(`C6_recalculate_idempotent_counterexample`). -/
theorem C6_recalculate_absorb (standings : List Standing) (ms : List Match)
    (cid sid : Nat) (t1 t2 : Int) :
    recalculate_standings (recalculate_standings standings ms cid sid t1)
      ms cid sid t2 = recalculate_standings standings ms cid sid t2 := by
  simp only [recalculate_standings]
  refine upsert_all_absorb cid sid t1 t2 _ _ ?_ standings
  refine List.pairwise_map.mp ?_
  exact stats_keys_nodup _

def c6ms : List Match :=
  [{ competition_id := 1, season_id := 1, home_team_id := some 1,
     away_team_id := some 2, home_score := some 1, away_score := some 0,
     status := MatchStatus.CONFIRMED, stage := some MatchStage.LEAGUE }]

/-- C6 counterexample: over one confirmed match, recalculating at time 0 and
again at time 1 does *not* reproduce the rows of the single call — the
`updated_at` stamps differ — although the repository test's projection
(points, goal difference, goals for, played) is unchanged. -/
theorem C6_recalculate_idempotent_counterexample :
    recalculate_standings (recalculate_standings [] c6ms 1 1 0) c6ms 1 1 1
      ≠ recalculate_standings [] c6ms 1 1 0 ∧
    (recalculate_standings (recalculate_standings [] c6ms 1 1 0) c6ms 1 1 1).map
      (fun s => (s.points, s.goal_difference, s.goals_for, s.played))
      = (recalculate_standings [] c6ms 1 1 0).map
        (fun s => (s.points, s.goal_difference, s.goals_for, s.played)) := by
  constructor
  · decide
  · decide

/- ── Team membership (`add_team_to_competition`, competition_service.py 35-46,
     and the add stage of `qualify_for_champions_league`,
     qualification_service.py 297-316) ── -/

def updateCompetition (db : DB) (cid : Nat) (f : Competition → Competition) : DB :=
  { db with competitions := db.competitions.map (fun c =>
      if c.id == cid then f c else c) }

/-- The `competition_teams` association table (competition.py lines 18-29) has
the composite primary key `(competition_id, team_id)`: a commit is accepted
only while no team id repeats within one competition's membership rows. -/
def competitionTeamsPKOk (c : Competition) : Bool :=
  decide ((c.teams.map (fun t => t.id)).Nodup)

/-- `add_team_to_competition(comp_id, team_id)` (lines 35-46): the team table
is passed explicitly for `db.session.get(Team, team_id)`.  Line 44 appends
unconditionally — there is no membership check. -/
def add_team_to_competition (db : DB) (teams_table : List Team)
    (comp_id team_id : Nat) : Option Competition × DB × Option String :=
  match dbGetCompetition db comp_id with
  | none => (none, db, some "Competition not found")
  | some comp =>
    match teams_table.find? (fun t => t.id == team_id) with
    | none => (none, db, some "Team not found")
    | some team =>
      (some { comp with teams := comp.teams ++ [team] },
        updateCompetition db comp_id (fun c => { c with teams := c.teams ++ [team] }),
        none)

/-- The add stage of `qualify_for_champions_league` (lines 297-305):
`existing_ids` is computed once; a qualified id already present is skipped,
otherwise the team found in the team table is appended and `added`
incremented.  Returns the CL team list and `added`. -/
def qualifyAddStage (cl_teams : List Team) (teams_table : List Team)
    (qualified : List Nat) : List Team × Nat :=
  let existing_ids := cl_teams.map (fun t => t.id)
  qualified.foldl (fun acc tid =>
    if tid ∈ existing_ids then acc
    else match teams_table.find? (fun t => t.id == tid) with
      | some team => (acc.1 ++ [team], acc.2 + 1)
      | none => acc) (cl_teams, 0)

/-- C9 (amended): a duplicate `add_team_to_competition` is *not* an idempotent
no-op — the service succeeds (error `none`) but appends a second membership
row for the same team, so the competition's team list grows and the commit
violates the `(competition_id, team_id)` primary key; idempotence holds only
for the qualification pipeline, whose add stage skips every id already in the
CL side and thus adds zero teams and leaves the team list identical on a
repeated call. -/
theorem C9_duplicate_add_and_qualification {db : DB} {teams_table : List Team}
    {comp : Competition} {team : Team} {cid : Nat}
    (hc : dbGetCompetition db cid = some comp)
    (ht : teams_table.find? (fun t => t.id == team.id) = some team)
    (hmem : team.id ∈ comp.teams.map (fun t => t.id)) :
    (add_team_to_competition db teams_table cid team.id).2.2 = none ∧
    (add_team_to_competition db teams_table cid team.id).1
      = some { comp with teams := comp.teams ++ [team] } ∧
    competitionTeamsPKOk { comp with teams := comp.teams ++ [team] } = false ∧
    (∀ (cl_teams : List Team) (qualified : List Nat),
      (∀ tid ∈ qualified, tid ∈ cl_teams.map (fun t => t.id)) →
      qualifyAddStage cl_teams teams_table qualified = (cl_teams, 0)) := by
  refine ⟨?_, ?_, ?_, ?_⟩
  · rw [add_team_to_competition, hc, ht]
  · rw [add_team_to_competition, hc, ht]
  · rw [competitionTeamsPKOk]
    apply decide_eq_false
    intro hnd
    rw [List.map_append] at hnd
    have hdisj := (List.nodup_append.mp hnd).2.2
    exact hdisj hmem (by simp)
  · intro cl_teams qualified hall
    rw [qualifyAddStage]
    have hgen : ∀ (q : List Nat), (∀ tid ∈ q, tid ∈ cl_teams.map (fun t => t.id)) →
        ∀ acc : List Team × Nat,
        q.foldl (fun acc tid =>
          if tid ∈ cl_teams.map (fun t => t.id) then acc
          else match teams_table.find? (fun t => t.id == tid) with
            | some team => (acc.1 ++ [team], acc.2 + 1)
            | none => acc) acc = acc := by
      intro q
      induction q with
      | nil => exact fun _ acc => rfl
      | cons tid q ih =>
        intro hq acc
        rw [List.foldl_cons, if_pos (hq tid (List.mem_cons_self _ _))]
        exact ih (fun x hx => hq x (List.mem_cons_of_mem _ hx)) acc
    exact hgen qualified hall (cl_teams, 0)

def c9t1 : Team := { id := 1, county_id := 0, region_id := 0 }

def c9comp : Competition :=
  { id := 1, type := CompetitionType.NATIONAL, season_id := 1, teams := [c9t1] }

def c9db : DB := { competitions := [c9comp], «matches» := [], standings := [] }

/-- C9 counterexample: adding team 1 to a competition that already contains it
returns no error yet grows the membership list to 2 rows and leaves a state
the association table's composite primary key rejects — not a no-op. -/
theorem C9_duplicate_add_counterexample :
    (add_team_to_competition c9db [c9t1] 1 1).2.2 = none ∧
    (add_team_to_competition c9db [c9t1] 1 1).1.map (fun c => c.teams.length)
      = some 2 ∧
    (add_team_to_competition c9db [c9t1] 1 1).1.map competitionTeamsPKOk
      = some false := by
  refine ⟨by decide, by decide, by decide⟩

def c9cl21 : List Team :=
  (List.range 21).map (fun i => { id := i + 1, county_id := 0, region_id := 0 })

theorem C9_duplicate_add_and_qualification_witness :
    (add_team_to_competition c9db [c9t1] 1 1).2.2 = none ∧
    (add_team_to_competition c9db [c9t1] 1 1).1
      = some { c9comp with teams := c9comp.teams ++ [c9t1] } ∧
    competitionTeamsPKOk { c9comp with teams := c9comp.teams ++ [c9t1] } = false ∧
    qualifyAddStage c9cl21 [c9t1] ((List.range 21).map (fun i => i + 1))
      = (c9cl21, 0) := by
  have h := @C9_duplicate_add_and_qualification c9db [c9t1] c9comp c9t1 1
    (by rfl) (by rfl) (by decide)
  exact ⟨h.1, h.2.1, h.2.2.1,
    h.2.2.2 c9cl21 ((List.range 21).map (fun i => i + 1)) (by decide)⟩

/- ── Completion status (`get_competition_status`, qualification_service.py
     15-48) ── -/

structure CompetitionStatus where
  total : Nat
  confirmed : Nat
  remaining : Nat
  complete : Bool
deriving DecidableEq, Repr

/-- `get_competition_status(competition_id)` (lines 15-48): counts the
competition's LEAGUE/GROUP matches and the confirmed ones among them;
`complete = total > 0 and confirmed == total` (line 46). -/
def get_competition_status (db : DB) (competition_id : Nat) :
    Option CompetitionStatus × Option String :=
  match dbGetCompetition db competition_id with
  | none => (none, some "Competition not found")
  | some _ =>
    let total := db.«matches».countP (fun m =>
      m.competition_id == competition_id &&
        (m.stage == some MatchStage.LEAGUE || m.stage == some MatchStage.GROUP))
    let confirmed := db.«matches».countP (fun m =>
      m.competition_id == competition_id &&
        m.status == MatchStatus.CONFIRMED &&
        (m.stage == some MatchStage.LEAGUE || m.stage == some MatchStage.GROUP))
    (some { total := total, confirmed := confirmed,
            remaining := total - confirmed,
            complete := decide (total > 0 ∧ confirmed = total) }, none)

/-- C10: a competition with zero LEAGUE/GROUP matches is reported with
`total = 0` and `complete = false` — completeness demands `total > 0` on top
of `confirmed == total`, so an empty competition is never treated as
complete. -/
theorem C10_zero_matches_not_complete {db : DB} {cid : Nat} {comp : Competition}
    (hc : dbGetCompetition db cid = some comp)
    (h0 : db.«matches».countP (fun m =>
      m.competition_id == cid &&
        (m.stage == some MatchStage.LEAGUE || m.stage == some MatchStage.GROUP))
      = 0) :
    ∃ st, get_competition_status db cid = (some st, none) ∧
      st.total = 0 ∧ st.complete = false := by
  rw [get_competition_status, hc]
  refine ⟨_, rfl, h0, ?_⟩
  show decide (db.«matches».countP (fun m =>
      m.competition_id == cid &&
        (m.stage == some MatchStage.LEAGUE || m.stage == some MatchStage.GROUP))
      > 0 ∧ _ = _) = false
  apply decide_eq_false
  intro hcon
  have h1 := hcon.1
  rw [h0] at h1
  exact Nat.lt_irrefl 0 h1

def c10comp : Competition :=
  { id := 1, type := CompetitionType.REGIONAL, season_id := 1, teams := [] }

def c10db : DB := { competitions := [c10comp], «matches» := [], standings := [] }

theorem C10_zero_matches_not_complete_witness :
    ∃ st, get_competition_status c10db 1 = (some st, none) ∧
      st.total = 0 ∧ st.complete = false :=
  C10_zero_matches_not_complete (by rfl) (by rfl)
